import Mathlib

set_option maxHeartbeats 1000000

namespace AppitPro

/-! ## Definitions: shallow embedding of the source -/

/-- Primitive dynamic values (leaves of Python dict records). -/
inductive PVal where
  | ps : String → PVal
  | pn : Nat → PVal
  | pi : Int → PVal
  | pr : Rat → PVal
  | pb : Bool → PVal
deriving DecidableEq, Repr

/-- Dynamic values stored in Python-style dict records.  Nested dicts in the
source (the `metadata` payloads) are flat string-to-primitive maps, so one
nesting level suffices. -/
inductive Val where
  | vs : String → Val
  | vn : Nat → Val
  | vi : Int → Val
  | vr : Rat → Val
  | vb : Bool → Val
  | vls : List String → Val
  | vpair : Rat → Rat → Val
  | vdict : List (String × PVal) → Val
deriving DecidableEq, Repr

/-- A Python dict with string keys, insertion ordered. -/
abbrev Rec := List (String × Val)

/-- Model of `d[k] = v` for a Python dict: overwrite in place if the key exists,
otherwise append at the end (insertion order preserved). -/
def setField : Rec → String → Val → Rec
  | [], k, v => [(k, v)]
  | p :: t, k, v => if p.1 = k then (k, v) :: t else p :: setField t k v

/-- Model of `d.get(k)`: the binding of the key, if any. -/
def getField : Rec → String → Option Val
  | [], _ => none
  | p :: t, k => if p.1 = k then some p.2 else getField t k

/-- The heap of live record objects; list indices play the role of object
identity. -/
abbrev Store := List Rec

/-- Model of `weights[k]` — raises `KeyError` when the strategy tag is absent. -/
def lookupW : List (String × Rat) → String → Except String Rat
  | [], k => .error ("KeyError: " ++ k)
  | p :: t, k => if p.1 = k then .ok p.2 else lookupW t k

/-- Model of `result["doc_id"]` — raises `KeyError` when the field is absent. -/
def getDocId (r : Rec) : Except String Val :=
  match getField r "doc_id" with
  | some v => .ok v
  | none => .error "KeyError: doc_id"

/-- Lookup in an insertion-ordered association list keyed by `Val`. -/
def lookupA {α : Type} : List (Val × α) → Val → Option α
  | [], _ => none
  | p :: t, d => if p.1 = d then some p.2 else lookupA t d

/-- In-place update of the value bound to a key (no-op when absent). -/
def mapUpdate {α : Type} : List (Val × α) → Val → (α → α) → List (Val × α)
  | [], _, _ => []
  | p :: t, d, f => if p.1 = d then (p.1, f p.2) :: t else p :: mapUpdate t d f

/-- The `for rank, result in enumerate(vector_results)` loop of
`fuse_results`: accumulates `weights["vector"]/(k+rank+1)` per doc id and
annotates the record registered in `doc_metadata` with
`vector_rank`/`vector_score` (an in-place dict mutation). -/
def vecLoop (w : List (String × Rat)) (kc : Nat) :
    List Nat → Nat → Store → List (Val × Rat) → List (Val × Nat) →
    Except String (Store × List (Val × Rat) × List (Val × Nat))
  | [], _, st, ds, dm => .ok (st, ds, dm)
  | ptr :: rest, rank, st, ds, dm =>
    match getDocId (st.getD ptr []) with
    | .error e => .error e
    | .ok did =>
      match lookupW w "vector" with
      | .error e => .error e
      | .ok wv =>
        let rrf := wv / ((kc : Rat) + rank + 1)
        let dsdm :=
          if (lookupA ds did).isNone then (ds ++ [(did, 0)], dm ++ [(did, ptr)])
          else (ds, dm)
        let ds2 := mapUpdate dsdm.1 did (fun x => x + rrf)
        let p := (lookupA dsdm.2 did).getD 0
        let st1 := st.set p (setField (st.getD p []) "vector_rank" (.vn rank))
        let st2 := st1.set p (setField (st1.getD p []) "vector_score"
          ((getField (st.getD ptr []) "score").getD (.vn 0)))
        vecLoop w kc rest (rank + 1) st2 ds2 dsdm.2

/-- The `for rank, result in enumerate(fuzzy_results)` loop of
`fuse_results`: accumulates `weights["fuzzy"]/(k+rank+1)` and, when the doc
id is registered in `doc_metadata` (always, after the init step), annotates
that record with `fuzzy_rank`/`fuzzy_score`/`fuzzy_type` in place. -/
def fuzLoop (w : List (String × Rat)) (kc : Nat) :
    List Nat → Nat → Store → List (Val × Rat) → List (Val × Nat) →
    Except String (Store × List (Val × Rat) × List (Val × Nat))
  | [], _, st, ds, dm => .ok (st, ds, dm)
  | ptr :: rest, rank, st, ds, dm =>
    match getDocId (st.getD ptr []) with
    | .error e => .error e
    | .ok did =>
      match lookupW w "fuzzy" with
      | .error e => .error e
      | .ok wf =>
        let rrf := wf / ((kc : Rat) + rank + 1)
        let dsdm :=
          if (lookupA ds did).isNone then (ds ++ [(did, 0)], dm ++ [(did, ptr)])
          else (ds, dm)
        let ds2 := mapUpdate dsdm.1 did (fun x => x + rrf)
        let st2 :=
          if (lookupA dsdm.2 did).isSome then
            let p := (lookupA dsdm.2 did).getD 0
            let s1 := st.set p (setField (st.getD p []) "fuzzy_rank" (.vn rank))
            let s2 := s1.set p (setField (s1.getD p []) "fuzzy_score"
              ((getField (st.getD ptr []) "score").getD (.vn 0)))
            s2.set p (setField (s2.getD p []) "fuzzy_type"
              ((getField (st.getD ptr []) "type").getD (.vs "")))
          else st
        fuzLoop w kc rest (rank + 1) st2 ds2 dsdm.2

/-- Stable insertion before the first strictly smaller key (descending). -/
def insertDescBy {α : Type} (key : α → Rat) (x : α) : List α → List α
  | [] => [x]
  | y :: ys => if key y < key x then x :: y :: ys else y :: insertDescBy key x ys

/-- Stable descending sort by a rational key — the behaviour of Python's
stable `sorted(..., key=..., reverse=True)`. -/
def stableSortDescBy {α : Type} (key : α → Rat) (l : List α) : List α :=
  l.foldl (fun acc x => insertDescBy key x acc) []

/-- The final loop of `fuse_results`: copy the registered metadata record of
each doc id (in descending score order) and annotate the copy with
`fused_score` and `fusion_method`. -/
def buildFused (st : Store) (dm : List (Val × Nat)) : List (Val × Rat) → List Rec
  | [] => []
  | (did, sc) :: rest =>
    let p := (lookupA dm did).getD 0
    let r2 := setField (setField (st.getD p []) "fused_score" (.vr sc))
      "fusion_method" (.vs "RRF")
    r2 :: buildFused st dm rest

/-- Model of `ReciprocalRankFusion.fuse_results` (`fts_manager.py:420-472`).  `kc` is
the constructor's `k` (default 60); `weights=None` defaults to
`{"vector": 0.6, "fuzzy": 0.4}`.  Returns the final store (the input records
may have been mutated in place) together with the fused output list. -/
def fuseResults (kc : Nat) (store : Store) (vec fuz : List Nat)
    (weights : Option (List (String × Rat))) : Except String (Store × List Rec) :=
  let w := weights.getD [("vector", (3 : Rat)/5), ("fuzzy", (2 : Rat)/5)]
  match vecLoop w kc vec 0 store [] [] with
  | .error e => .error e
  | .ok s1 =>
    match fuzLoop w kc fuz 0 s1.1 s1.2.1 s1.2.2 with
    | .error e => .error e
    | .ok s2 =>
      .ok (s2.1, buildFused s2.1 s2.2.2 (stableSortDescBy (fun p => p.2) s2.2.1))

/-- The `doc_scores`/`doc_metadata` update performed per result: initialise
a fresh id to score `0` (registering its record), then add
`w / (k + rank + 1)`. -/
def accumLoop (w : Rat) (kc : Nat) :
    List (Val × Nat) → Nat → List (Val × Rat) × List (Val × Nat) →
    List (Val × Rat) × List (Val × Nat)
  | [], _, s => s
  | (d, p) :: rest, r, (ds, dm) =>
    let s1 := if (lookupA ds d).isNone then (ds ++ [(d, 0)], dm ++ [(d, p)]) else (ds, dm)
    accumLoop w kc rest (r + 1) (mapUpdate s1.1 d (fun x => x + w / ((kc : Rat) + r + 1)), s1.2)

/-- Zero-based index of the first occurrence of an id. -/
def idxOf (d : Val) : List Val → Option Nat
  | [] => none
  | x :: xs => if x = d then some 0 else (idxOf d xs).map (· + 1)

/-- One strategy's reciprocal-rank contribution: `w / (k + rank + 1)` when
the id occurs in the strategy's ranked id list, `0` otherwise. -/
def rrfContribution (w : Rat) (kc : Nat) (ids : List Val) (d : Val) : Rat :=
  match idxOf d ids with
  | some i => w / ((kc : Rat) + i + 1)
  | none => 0

/-- Total RRF score of an id over the vector and fuzzy lists. -/
def rrfTotal (wv wf : Rat) (kc : Nat) (vIds fIds : List Val) (d : Val) : Rat :=
  rrfContribution wv kc vIds d + rrfContribution wf kc fIds d

/-- The doc id of the record at pointer `p` (defaulting for absent fields;
only used under the hypothesis that the field is present). -/
def docIdD (st : Store) (p : Nat) : Val := (getField (st.getD p []) "doc_id").getD (.vs "")

/-- The (doc id, pointer) pairs of a result list. -/
def idPtrs (st : Store) (ptrs : List Nat) : List (Val × Nat) :=
  ptrs.map (fun p => (docIdD st p, p))

/-- The doc ids of a result list (as stored in the records). -/
def docIds (st : Store) (ptrs : List Nat) : List Val := ptrs.map (docIdD st)

/-- The `fused_score` field of an output record (as a rational). -/
def fusedScoreD (r : Rec) : Rat :=
  match getField r "fused_score" with
  | some (.vr x) => x
  | _ => 0

def exD1v : Rec := [("doc_id", .vs "d1"), ("score", .vr (9/10))]

def exD2v : Rec := [("doc_id", .vs "d2"), ("score", .vr (4/5))]

def exD2f : Rec := [("doc_id", .vs "d2"), ("score", .vr 12)]

def exD3f : Rec := [("doc_id", .vs "d3"), ("score", .vr 9)]

def exStore : Store := [exD1v, exD2v, exD2f, exD3f]

def exWeights : List (String × Rat) := [("vector", 3/5), ("fuzzy", 2/5)]

/-- The fused doc-id order of the spec's end-to-end scenario. -/
def exFusedDocIds : Option (List Val) :=
  match fuseResults 60 exStore [0, 1] [2, 3] (some exWeights) with
  | .ok pr => some (pr.2.map (fun r => (getField r "doc_id").getD (.vs "")))
  | .error _ => none

/-- A single vector record used to exhibit the in-place mutation. -/
def mutRec : Rec := [("doc_id", .vs "d1"), ("score", .vr 1)]

/-- The store after fusing, exposed as a total projection. -/
def storeAfterFuse (kc : Nat) (st : Store) (vec fuz : List Nat)
    (weights : Option (List (String × Rat))) : Option Store :=
  match fuseResults kc st vec fuz weights with
  | .ok pr => some pr.1
  | .error _ => none

/-- The record that the fuzzy loop annotates for the result at pointer `p`:
the one registered in `doc_metadata` for its doc id, defaulting to `p`
itself when the id is not yet registered. -/
def targetPtr (dm : List (Val × Nat)) (st : Store) (p : Nat) : Nat :=
  (lookupA dm (docIdD st p)).getD p

/-- Records for the C7 counterexample: the same doc id in both lists; the
fuzzy record carries an extra `snippet` field. -/
def c7VecRec : Rec := [("doc_id", .vs "d1"), ("score", .vr 1)]

def c7FuzRec : Rec := [("doc_id", .vs "d1"), ("score", .vr 2), ("snippet", .vs "x")]

/-- The fused output list, exposed as a total projection. -/
def fusedOut (kc : Nat) (st : Store) (vec fuz : List Nat)
    (weights : Option (List (String × Rat))) : Option (List Rec) :=
  match fuseResults kc st vec fuz weights with
  | .ok pr => some pr.2
  | .error _ => none

/-- A directed graph with attribute dicts on nodes and edges
(networkx `DiGraph`: one edge per ordered pair, attributes update on
re-insertion). -/
structure Graph where
  nodes : List (String × Rec)
  edges : List ((String × String) × Rec)
deriving DecidableEq, Repr

/-- Model of `dict.update(other)`: overwrite/append every binding of `other`. -/
def updateRec (r other : Rec) : Rec :=
  other.foldl (fun acc kv => setField acc kv.1 kv.2) r

/-- Association lookup with string keys. -/
def lookupS {α : Type} : List (String × α) → String → Option α
  | [], _ => none
  | p :: t, k => if p.1 = k then some p.2 else lookupS t k

/-- Association set with string keys (overwrite or append). -/
def setKV {α : Type} : List (String × α) → String → α → List (String × α)
  | [], k, v => [(k, v)]
  | p :: t, k, v => if p.1 = k then (k, v) :: t else p :: setKV t k v

/-- Model of `networkx.DiGraph.add_node`: update the attribute dict of an existing
node, else append a fresh node. -/
def nxAddNode (g : Graph) (id : String) (attrs : Rec) : Graph :=
  if id ∈ g.nodes.map Prod.fst then
    { g with nodes := g.nodes.map (fun p => if p.1 = id then (id, updateRec p.2 attrs) else p) }
  else
    { g with nodes := g.nodes ++ [(id, attrs)] }

/-- Model of `networkx.DiGraph.add_edge`: missing endpoints are created bare; an
existing edge's attribute dict is updated, else the edge is appended. -/
def nxAddEdge (g : Graph) (u v : String) (attrs : Rec) : Graph :=
  let g1 := if u ∈ g.nodes.map Prod.fst then g
    else { g with nodes := g.nodes ++ [(u, [])] }
  let g2 := if v ∈ g1.nodes.map Prod.fst then g1
    else { g1 with nodes := g1.nodes ++ [(v, [])] }
  if (u, v) ∈ g2.edges.map Prod.fst then
    { g2 with edges :=
        g2.edges.map (fun e => if e.1 = (u, v) then ((u, v), updateRec e.2 attrs) else e) }
  else
    { g2 with edges := g2.edges ++ [((u, v), attrs)] }

/-- The node attribute dict, when the node exists (`graph.nodes[id]`). -/
def nodeAttrs (g : Graph) (id : String) : Option Rec :=
  lookupS g.nodes id

/-- Model of `graph.nodes[id]` with `KeyError` on a missing node. -/
def nodeAttrsE (g : Graph) (id : String) : Except String Rec :=
  match nodeAttrs g id with
  | some r => .ok r
  | none => .error "KeyError: node"

/-- Model of `graph.edges[u, v]`, when the edge exists. -/
def edgeData (g : Graph) (u v : String) : Option Rec :=
  match g.edges.find? (fun e => e.1.1 = u ∧ e.1.2 = v) with
  | some e => some e.2
  | none => none

/-- Model of `graph.neighbors(u)`: successors, in edge insertion order. -/
def successors (g : Graph) (u : String) : List String :=
  (g.edges.filter (fun e => decide (e.1.1 = u))).map (fun e => e.1.2)

/-- The `node_types` visual registry of `NeuralGraphMemory.__init__`. -/
def nodeTypesRegistry : List (String × Rec) :=
  [("document", [("color", .vs "#4CAF50"), ("shape", .vs "rectangle")]),
   ("function", [("color", .vs "#2196F3"), ("shape", .vs "ellipse")]),
   ("class", [("color", .vs "#FF9800"), ("shape", .vs "diamond")]),
   ("conversation", [("color", .vs "#9C27B0"), ("shape", .vs "circle")]),
   ("edit", [("color", .vs "#F44336"), ("shape", .vs "triangle")]),
   ("error", [("color", .vs "#795548"), ("shape", .vs "hexagon")])]

/-- The `edge_types` visual registry of `NeuralGraphMemory.__init__`. -/
def edgeTypesRegistry : List (String × Rec) :=
  [("similarity", [("weight_range", .vpair 0 1), ("color", .vs "#2196F3")]),
   ("dependency", [("weight_range", .vpair 0 1), ("color", .vs "#4CAF50")]),
   ("temporal", [("weight_range", .vpair 0 1), ("color", .vs "#FF9800")]),
   ("conversation", [("weight_range", .vpair 0 1), ("color", .vs "#9C27B0")]),
   ("edit_relation", [("weight_range", .vpair 0 1), ("color", .vs "#F44336")])]

/-- The `NeuralGraphMemory` state: the graph plus the embeddings cache. -/
structure GM where
  graph : Graph
  embeddingsCache : List (String × List Rat)
deriving DecidableEq, Repr

/-- Body of `NeuralGraphMemory.add_node` (`graph_memory.py:62-93`), without
the surrounding `try`.  `h` models Python's `hash`, `now` the timestamp. -/
def addNodeBody (h : String → Int) (now : Nat) (gm : GM)
    (nodeId nodeType content : String) (metadata : Option (List (String × PVal)))
    (embedding : Option (List Rat)) : Except String (GM × Bool) :=
  let md := metadata.getD []
  let attrs : Rec := [("type", .vs nodeType), ("content", .vs content),
    ("metadata", .vdict md), ("created_at", .vn now),
    ("content_hash", .vi (h content))]
  let attrs2 := match lookupS nodeTypesRegistry nodeType with
    | some visual => updateRec attrs visual
    | none => attrs
  let g := nxAddNode gm.graph nodeId attrs2
  let cache := match embedding with
    | some e => setKV gm.embeddingsCache nodeId e
    | none => gm.embeddingsCache
  .ok ({ graph := g, embeddingsCache := cache }, true)

/-- Model of `NeuralGraphMemory.add_node`: the body under `try`, with the `except`
branch returning `False`. -/
def addNode (h : String → Int) (now : Nat) (gm : GM)
    (nodeId nodeType content : String) (metadata : Option (List (String × PVal)))
    (embedding : Option (List Rat)) : Except String (GM × Bool) :=
  match addNodeBody h now gm nodeId nodeType content metadata embedding with
  | .ok r => .ok r
  | .error _ => .ok (gm, false)

/-- Body of `NeuralGraphMemory.add_edge` (`graph_memory.py:95-121`): unknown
endpoints log a warning and return `False` without touching the graph. -/
def addEdgeBody (now : Nat) (gm : GM) (source target edgeType : String)
    (weight : Rat) (metadata : Option (List (String × PVal))) :
    Except String (GM × Bool) :=
  if source ∉ gm.graph.nodes.map Prod.fst ∨ target ∉ gm.graph.nodes.map Prod.fst then
    .ok (gm, false)
  else
    let edgeAttrs : Rec := [("type", .vs edgeType), ("weight", .vr weight),
      ("metadata", .vdict (metadata.getD [])), ("created_at", .vn now)]
    let edgeAttrs2 := match lookupS edgeTypesRegistry edgeType with
      | some visual => updateRec edgeAttrs visual
      | none => edgeAttrs
    .ok ({ gm with graph := nxAddEdge gm.graph source target edgeAttrs2 }, true)

/-- Model of `NeuralGraphMemory.add_edge`: body under `try`, `except` returns `False`. -/
def addEdge (now : Nat) (gm : GM) (source target edgeType : String)
    (weight : Rat) (metadata : Option (List (String × PVal))) :
    Except String (GM × Bool) :=
  match addEdgeBody now gm source target edgeType weight metadata with
  | .ok r => .ok r
  | .error _ => .ok (gm, false)

/-- Keys of the heterogeneous dict returned by `query_neighbors` (the
missing-node / error default is keyed by the string `"neighbors"`, the
normal result by integer depths). -/
inductive QKey where
  | s : String → QKey
  | n : Nat → QKey
deriving DecidableEq, Repr

/-- Model of `defaultdict(list)` append. -/
def ddAppend (m : List (Nat × List Rec)) (k : Nat) (x : Rec) : List (Nat × List Rec) :=
  if k ∈ m.map Prod.fst then
    m.map (fun p => if p.1 = k then (p.1, p.2 ++ [x]) else p)
  else m ++ [(k, [x])]

/-- Python string/list slicing `v[:n]`; slicing anything else raises. -/
def sliceVal (v : Val) (n : Nat) : Except String Val :=
  match v with
  | .vs c => .ok (.vs (String.mk (c.toList.take n)))
  | .vls l => .ok (.vls (l.take n))
  | _ => .error "TypeError: value is not subscriptable"

/-- The per-neighbor body of the `query_neighbors` BFS: filter by edge type,
build the neighbor info record, extend the depth map and (below the depth
bound) the queue. -/
def qnNeighbors (g : Graph) (edgeTypes : List String) (maxDepth : Int)
    (current : String) (depth : Nat) :
    List String → List (Nat × List Rec) → List (String × Nat) →
    Except String (List (Nat × List Rec) × List (String × Nat))
  | [], acc, qadd => .ok (acc, qadd)
  | nb :: rest, acc, qadd =>
    let ed := (edgeData g current nb).getD []
    if decide (edgeTypes ≠ []) && (match getField ed "type" with
        | some (.vs t) => decide (t ∉ edgeTypes)
        | _ => true) then
      qnNeighbors g edgeTypes maxDepth current depth rest acc qadd
    else
      match nodeAttrsE g nb with
      | .error e => .error e
      | .ok attrs =>
        match sliceVal ((getField attrs "content").getD (.vs "")) 100 with
        | .error e => .error e
        | .ok preview =>
          let info : Rec := [("node_id", .vs nb),
            ("node_type", (getField attrs "type").getD (.vs "unknown")),
            ("edge_type", (getField ed "type").getD (.vs "unknown")),
            ("weight", (getField ed "weight").getD (.vr 0)),
            ("depth", .vn (depth + 1)),
            ("content_preview", preview)]
          let acc2 := ddAppend acc (depth + 1) info
          let qadd2 := if ((depth : Int) + 1) < maxDepth then qadd ++ [(nb, depth + 1)]
            else qadd
          qnNeighbors g edgeTypes maxDepth current depth rest acc2 qadd2

/-- The `while queue` loop of `query_neighbors`, with fuel (the loop makes at
most one pop per queued entry; the fuel below is an upper bound on those). -/
def qnLoop (g : Graph) (edgeTypes : List String) (maxDepth : Int) :
    Nat → List (String × Nat) → List String → List (Nat × List Rec) →
    Except String (List (Nat × List Rec))
  | _, [], _, acc => .ok acc
  | 0, _ :: _, _, acc => .ok acc
  | fuel + 1, (current, depth) :: queue, visited, acc =>
    if (depth : Int) > maxDepth ∨ current ∈ visited then
      qnLoop g edgeTypes maxDepth fuel queue visited acc
    else
      match qnNeighbors g edgeTypes maxDepth current depth
          (successors g current) acc [] with
      | .error e => .error e
      | .ok (acc2, qadd) =>
        qnLoop g edgeTypes maxDepth fuel (queue ++ qadd) (visited ++ [current]) acc2

/-- Body of `NeuralGraphMemory.query_neighbors` (`graph_memory.py:317-363`),
without the surrounding `try`. -/
def queryNeighborsBody (gm : GM) (nodeId : String) (maxDepth : Int)
    (edgeTypes : List String) : Except String (List (QKey × List Rec)) :=
  if nodeId ∈ gm.graph.nodes.map Prod.fst then
    match qnLoop gm.graph edgeTypes maxDepth
        (gm.graph.nodes.length + gm.graph.edges.length + 2) [(nodeId, 0)] [] [] with
    | .error e => .error e
    | .ok m => .ok (m.map (fun p => (QKey.n p.1, p.2)))
  else .ok [(QKey.s "neighbors", [])]

/-- Model of `NeuralGraphMemory.query_neighbors`: body under `try`, `except` returns
`{"neighbors": []}`. -/
def queryNeighbors (gm : GM) (nodeId : String) (maxDepth : Int)
    (edgeTypes : List String) : Except String (List (QKey × List Rec)) :=
  match queryNeighborsBody gm nodeId maxDepth edgeTypes with
  | .ok v => .ok v
  | .error _ => .ok [(QKey.s "neighbors", [])]

/-- The `_bfs_search` loop (`graph_memory.py:408-438`), with fuel. -/
def bfsLoop (g : Graph) (startNode goalType : String) (maxSteps : Int) :
    Nat → List (String × Nat × List String) → List String → List Rec →
    Except String (List Rec)
  | _, [], _, results => .ok results
  | 0, _ :: _, _, results => .ok results
  | fuel + 1, (current, depth, path) :: queue, visited, results =>
    if 10 ≤ results.length then .ok results
    else if (depth : Int) > maxSteps ∨ current ∈ visited then
      bfsLoop g startNode goalType maxSteps fuel queue visited results
    else
      match nodeAttrsE g current with
      | .error e => .error e
      | .ok attrs =>
        let results2 :=
          if (getField attrs "type").getD (.vs "") = .vs goalType ∧ current ≠ startNode
          then results ++ [[("node_id", .vs current), ("path", .vls (path ++ [current])),
            ("depth", .vn depth), ("method", .vs "bfs"),
            ("composite_score", .vr (1 / ((depth : Rat) + 1)))]]
          else results
        let visited2 := visited ++ [current]
        let qadd := ((successors g current).filter (fun nb => decide (nb ∉ visited2))).map
          (fun nb => (nb, depth + 1, path ++ [current]))
        bfsLoop g startNode goalType maxSteps fuel (queue ++ qadd) visited2 results2

/-- Model of `NeuralGraphMemory._bfs_search`. -/
def bfsSearch (g : Graph) (startNode goalType : String) (maxSteps : Int) :
    Except String (List Rec) :=
  bfsLoop g startNode goalType maxSteps (g.nodes.length + g.edges.length + 2)
    [(startNode, 0, [])] [] []

/-- Modelled library call: unweighted `nx.shortest_path_length` as a
reference breadth-first hop count (`none` for `NetworkXNoPath`). -/
def hopLoop (g : Graph) (target : String) :
    Nat → List (String × Nat) → List String → Option Nat
  | 0, _, _ => none
  | _ + 1, [], _ => none
  | fuel + 1, (current, d) :: queue, visited =>
    if current = target then some d
    else if current ∈ visited then hopLoop g target fuel queue visited
    else hopLoop g target fuel
      (queue ++ (successors g current).map (fun nb => (nb, d + 1)))
      (visited ++ [current])

/-- Hop distance between two nodes. -/
def hopDist (g : Graph) (s t : String) : Option Nat :=
  hopLoop g t (g.nodes.length + g.edges.length + 2) [(s, 0)] []

/-- Rational lookup with Python's `dict.get(k, 0)`. -/
def prGet (scores : List (String × Rat)) (id : String) : Rat :=
  (lookupS scores id).getD 0

/-- The goal-collection loop of `_pagerank_search` (`graph_memory.py:440-467`):
for each goal-typed node reachable within `max_steps` hops, emit a record
scored `pagerank / (path_length + 1)`. -/
def prCollect (g : Graph) (startNode goalType : String) (maxSteps : Int)
    (scores : List (String × Rat)) : List (String × Rec) → List Rec
  | [] => []
  | (id, data) :: rest =>
    if getField data "type" = some (.vs goalType) then
      match hopDist g startNode id with
      | none => prCollect g startNode goalType maxSteps scores rest
      | some len =>
        if (len : Int) ≤ maxSteps then
          [("node_id", .vs id), ("pagerank_score", .vr (prGet scores id)),
           ("path_length", .vn len), ("method", .vs "pagerank"),
           ("composite_score", .vr (prGet scores id / ((len : Rat) + 1)))] ::
            prCollect g startNode goalType maxSteps scores rest
        else prCollect g startNode goalType maxSteps scores rest
    else prCollect g startNode goalType maxSteps scores rest

/-- Model of `NeuralGraphMemory._pagerank_search`; `pr` is the `nx.pagerank`
collaborator (it may fail to converge, which the internal `except` turns
into an empty result). -/
def pagerankSearch (pr : Graph → Except String (List (String × Rat)))
    (g : Graph) (startNode goalType : String) (maxSteps : Int) : List Rec :=
  match pr g with
  | .error _ => []
  | .ok scores => prCollect g startNode goalType maxSteps scores g.nodes

/-- Sum of `edge_data.get("weight", 0)` along a path; `KeyError` when a
claimed edge does not exist. -/
def pathWeightE (g : Graph) : List String → Except String Rat
  | [] => .ok 0
  | [_] => .ok 0
  | u :: v :: rest =>
    match edgeData g u v with
    | none => .error "KeyError: edge"
    | some ed =>
      match pathWeightE g (v :: rest) with
      | .error e => .error e
      | .ok w => .ok ((match getField ed "weight" with
          | some (.vr x) => x
          | _ => 0) + w)

/-- The goal loop of `_shortest_path_search` (`graph_memory.py:469-506`);
`sp` is the weighted `nx.shortest_path` collaborator (`none` models
`NetworkXNoPath`, caught by the inner `except`). -/
def spCollect (sp : Graph → String → String → Option (List String))
    (g : Graph) (startNode : String) (maxSteps : Int) :
    List String → Except String (List Rec)
  | [] => .ok []
  | goal :: rest =>
    match sp g startNode goal with
    | none => spCollect sp g startNode maxSteps rest
    | some path =>
      if (path.length : Int) ≤ maxSteps + 1 then
        match pathWeightE g path with
        | .error e => .error e
        | .ok wsum =>
          if path.length = 0 then .error "ZeroDivisionError: division by zero"
          else
            match spCollect sp g startNode maxSteps rest with
            | .error e => .error e
            | .ok others =>
              .ok ([("node_id", .vs goal), ("path", .vls path),
                ("path_length", .vn (path.length - 1)), ("path_weight", .vr wsum),
                ("method", .vs "shortest_path"),
                ("composite_score", .vr (wsum / (path.length : Rat)))] :: others)
      else spCollect sp g startNode maxSteps rest

/-- Model of `NeuralGraphMemory._shortest_path_search`: the outer `except` turns any
error (bad path, division by zero) into an empty result. -/
def shortestPathSearch (sp : Graph → String → String → Option (List String))
    (g : Graph) (startNode goalType : String) (maxSteps : Int) : List Rec :=
  match spCollect sp g startNode maxSteps
      ((g.nodes.filter (fun p => decide (getField p.2 "type" = some (.vs goalType)))).map
        Prod.fst) with
  | .ok r => r
  | .error _ => []

/-- The per-start-node strategy union of `reasoning_walk`
(`graph_memory.py:374-388`): a start node absent from the graph is skipped. -/
def walkPerStart (pr : Graph → Except String (List (String × Rat)))
    (sp : Graph → String → String → Option (List String))
    (g : Graph) (goalType : String) (maxSteps : Int) :
    List String → Except String (List Rec)
  | [] => .ok []
  | s :: rest =>
    if s ∈ g.nodes.map Prod.fst then
      match bfsSearch g s goalType maxSteps with
      | .error e => .error e
      | .ok bfsr =>
        match walkPerStart pr sp g goalType maxSteps rest with
        | .error e => .error e
        | .ok others =>
          .ok (bfsr ++ pagerankSearch pr g s goalType maxSteps ++
            shortestPathSearch sp g s goalType maxSteps ++ others)
    else walkPerStart pr sp g goalType maxSteps rest

/-- First-seen deduplication by `result["node_id"]`
(`graph_memory.py:391-397`). -/
def dedupByNodeId : List Rec → List Val → Except String (List Rec)
  | [], _ => .ok []
  | r :: rest, seen =>
    match getField r "node_id" with
    | none => .error "KeyError: node_id"
    | some v =>
      if v ∈ seen then dedupByNodeId rest seen
      else
        match dedupByNodeId rest (seen ++ [v]) with
        | .error e => .error e
        | .ok others => .ok (r :: others)

/-- Model of `result.get("composite_score", 0)` as a rational sort key. -/
def compositeScoreD (r : Rec) : Rat :=
  match getField r "composite_score" with
  | some (.vr x) => x
  | _ => 0

/-- Body of `NeuralGraphMemory.reasoning_walk` (`graph_memory.py:365-406`):
union the three strategies over all start nodes, deduplicate by node id
(first seen wins) and sort descending by composite score. -/
def reasoningWalkBody (pr : Graph → Except String (List (String × Rat)))
    (sp : Graph → String → String → Option (List String))
    (gm : GM) (startNodes : List String) (goalType : String) (maxSteps : Int) :
    Except String (List Rec) :=
  match walkPerStart pr sp gm.graph goalType maxSteps startNodes with
  | .error e => .error e
  | .ok all =>
    match dedupByNodeId all [] with
    | .error e => .error e
    | .ok deduped => .ok (stableSortDescBy compositeScoreD deduped)

/-- Model of `NeuralGraphMemory.reasoning_walk`: body under `try`, `except` returns
the empty list. -/
def reasoningWalk (pr : Graph → Except String (List (String × Rat)))
    (sp : Graph → String → String → Option (List String))
    (gm : GM) (startNodes : List String) (goalType : String) (maxSteps : Int) :
    Except String (List Rec) :=
  match reasoningWalkBody pr sp gm startNodes goalType maxSteps with
  | .ok v => .ok v
  | .error _ => .ok []

/-- A fixed stand-in for Python's `hash`. -/
def h0 : String → Int := fun _ => 0

/-- The empty memory. -/
def gm0 : GM := ⟨⟨[], []⟩, []⟩

/-- A memory holding the single node `"a"` (inserted at time 1). -/
def gmA : GM :=
  match addNode h0 1 gm0 "a" "document" "c" none none with
  | .ok r => r.1
  | .error _ => gm0

/-- A pagerank collaborator for the one-node graph. -/
def prA : Graph → Except String (List (String × Rat)) := fun _ => .ok [("a", 1)]

/-- A weighted-shortest-path collaborator for the one-node graph
(`nx.shortest_path(g, "a", "a") = ["a"]`). -/
def spA : Graph → String → String → Option (List String) :=
  fun _ a b => if a = "a" ∧ b = "a" then some ["a"] else none

/-- The `created_at` attribute of a node. -/
def createdAtOf (gm : GM) (id : String) : Option Val :=
  match nodeAttrs gm.graph id with
  | some r => getField r "created_at"
  | none => none

/-- The success dict built by `RAGOrchestrator.hybrid_retrieve`
(`rag_orchestrator.py:312-321`); vector and fuzzy results are pointers
into the shared record store (Python lists of dict references). -/
structure HRRecord where
  query : String
  mode : String
  pilotId : Option String
  timestamp : Nat
  vectorResults : List Nat
  fuzzyResults : List Nat
  graphResults : List Rec
  fusedResults : List Rec
deriving DecidableEq, Repr

/-- The return value of `hybrid_retrieve`: the results dict, or the
`{"error": str(e), "query": query}` dict of the `except` branch
(`rag_orchestrator.py:361-363`). -/
inductive HRResult where
  | record : HRRecord → HRResult
  | errorRecord : (err : String) → (query : String) → HRResult
deriving DecidableEq, Repr

/-- The graph-channel loop of `hybrid_retrieve`
(`rag_orchestrator.py:338-343`): extend `graph_results` with every
neighbor list of `query_neighbors(node_id, max_depth=2)` for each start
node. -/
def gatherNeighbors (qn : String → Int → Except String (List (QKey × List Rec))) :
    List String → Except String (List Rec)
  | [] => .ok []
  | n :: rest =>
    match qn n 2 with
    | .error e => .error e
    | .ok m =>
      match gatherNeighbors qn rest with
      | .error e => .error e
      | .ok others => .ok ((m.map Prod.snd).flatten ++ others)

/-- Body of `RAGOrchestrator.hybrid_retrieve` under its single `try`
(`rag_orchestrator.py:311-358`), over the four collaborators: `vq` is
`vector_manager.query_semantic`, `fq` is `fuzzy_manager.query_fuzzy`,
`fqn` is `_find_query_nodes` (total in the source: it catches its own
exceptions and returns a list), and `qn` is
`graph_memory.query_neighbors`. Fusion runs only in mode `"all"` with a
non-empty channel, with `k=60` and weights `{vector: 0.6, fuzzy: 0.4}`. -/
def hybridRetrieveBody (now : Nat) (store : Store)
    (vq : String → Nat → Option String → Except String (List Nat))
    (fq : String → Nat → Except String (List Nat))
    (fqn : String → List String)
    (qn : String → Int → Except String (List (QKey × List Rec)))
    (query mode : String) (pilotId : Option String) (k : Nat) :
    Except String (Store × HRRecord) :=
  match (if mode = "all" ∨ mode = "semantic" ∨ mode = "vector"
      then vq query (k * 2) pilotId else .ok []) with
  | .error e => .error e
  | .ok vecR =>
    match (if mode = "all" ∨ mode = "fuzzy" ∨ mode = "lexical"
        then fq query (k * 2) else .ok []) with
    | .error e => .error e
    | .ok fuzR =>
      match (if mode = "all" ∨ mode = "graph" then
          (if fqn query ≠ [] then
            match gatherNeighbors qn ((fqn query).take 3) with
            | .error e => .error e
            | .ok gr => .ok (gr.take k)
          else .ok [])
        else (.ok [] : Except String (List Rec))) with
      | .error e => .error e
      | .ok graphR =>
        match (if mode = "all" ∧ (vecR ≠ [] ∨ fuzR ≠ []) then
            fuseResults 60 store vecR fuzR
              (some [("vector", (3 : Rat)/5), ("fuzzy", (2 : Rat)/5)])
          else .ok (store, [])) with
        | .error e => .error e
        | .ok sf =>
          .ok (sf.1, ⟨query, mode, pilotId, now, vecR, fuzR, graphR, sf.2.take k⟩)

/-- Model of `RAGOrchestrator.hybrid_retrieve`: the `except Exception` branch
returns the error dict (`rag_orchestrator.py:361-363`). -/
def hybridRetrieve (now : Nat) (store : Store)
    (vq : String → Nat → Option String → Except String (List Nat))
    (fq : String → Nat → Except String (List Nat))
    (fqn : String → List String)
    (qn : String → Int → Except String (List (QKey × List Rec)))
    (query mode : String) (pilotId : Option String) (k : Option Nat) :
    Except String HRResult :=
  match hybridRetrieveBody now store vq fq fqn qn query mode pilotId (k.getD 10) with
  | .ok r => .ok (.record r.2)
  | .error e => .ok (.errorRecord e query)

/-- A vector collaborator returning one record pointer. -/
def vq0 : String → Nat → Option String → Except String (List Nat) :=
  fun _ _ _ => .ok [0]

/-- A fuzzy collaborator that raises. -/
def fq0 : String → Nat → Except String (List Nat) := fun _ _ => .error "boom"

/-- A query-node finder finding nothing. -/
def fqn0 : String → List String := fun _ => []

/-- A neighbor query returning nothing. -/
def qn0 : String → Int → Except String (List (QKey × List Rec)) := fun _ _ => .ok []

/-! ## Theorems -/

theorem getField_setField_self (r : Rec) (k : String) (v : Val) :
    getField (setField r k v) k = some v := by
  induction r with
  | nil => simp [setField, getField]
  | cons p t ih =>
    by_cases hk : p.1 = k
    · simp [setField, getField, hk]
    · simp [setField, getField, hk, ih]

theorem getField_setField_ne (r : Rec) (k k' : String) (v : Val) (h : k' ≠ k) :
    getField (setField r k v) k' = getField r k' := by
  induction r with
  | nil => simp [setField, getField, Ne.symm h]
  | cons p t ih =>
    by_cases hk : p.1 = k
    · have hkk : ¬ (k = k') := Ne.symm h
      have hpk : ¬ (p.1 = k') := hk ▸ hkk
      simp [setField, getField, hk, hkk, hpk]
    · by_cases hk' : p.1 = k'
      · simp [setField, getField, hk, hk', h]
      · simp [setField, getField, hk, hk', ih]

theorem lookupA_eq_none {α : Type} (l : List (Val × α)) (d : Val) :
    lookupA l d = none ↔ d ∉ l.map Prod.fst := by
  induction l with
  | nil => simp [lookupA]
  | cons p t ih =>
    by_cases hk : p.1 = d
    · simp [lookupA, hk]
    · simp only [lookupA, hk, if_false, List.map, List.mem_cons, ih]
      constructor
      · intro hn hc
        rcases hc with hc | hc
        · exact hk hc.symm
        · exact hn hc
      · intro hn hc
        exact hn (Or.inr hc)

theorem lookupA_append_right {α : Type} (l₁ l₂ : List (Val × α)) (d : Val)
    (h : d ∉ l₁.map Prod.fst) :
    lookupA (l₁ ++ l₂) d = lookupA l₂ d := by
  induction l₁ with
  | nil => simp
  | cons p t ih =>
    simp only [List.map, List.mem_cons] at h
    push_neg at h
    have : ¬ p.1 = d := fun he => h.1 he.symm
    simp only [List.cons_append, lookupA, this, if_false]
    exact ih h.2

theorem lookupA_append_left {α : Type} (l₁ l₂ : List (Val × α)) (d : Val)
    (h : (lookupA l₁ d).isSome) :
    lookupA (l₁ ++ l₂) d = lookupA l₁ d := by
  induction l₁ with
  | nil => simp [lookupA] at h
  | cons p t ih =>
    by_cases hk : p.1 = d
    · simp [lookupA, hk]
    · simp only [lookupA, hk, if_false] at h ⊢
      exact ih h

theorem lookupA_mapUpdate_self {α : Type} (l : List (Val × α)) (d : Val) (f : α → α) :
    lookupA (mapUpdate l d f) d = (lookupA l d).map f := by
  induction l with
  | nil => simp [lookupA, mapUpdate]
  | cons p t ih =>
    by_cases hk : p.1 = d
    · simp [lookupA, mapUpdate, hk]
    · simp [lookupA, mapUpdate, hk, ih]

theorem lookupA_mapUpdate_ne {α : Type} (l : List (Val × α)) (d d' : Val) (f : α → α)
    (h : d' ≠ d) :
    lookupA (mapUpdate l d f) d' = lookupA l d' := by
  induction l with
  | nil => simp [lookupA, mapUpdate]
  | cons p t ih =>
    by_cases hk : p.1 = d
    · have hpd : ¬ p.1 = d' := hk ▸ Ne.symm h
      simp [lookupA, mapUpdate, hk, hpd, Ne.symm h]
    · by_cases hk' : p.1 = d'
      · simp [lookupA, mapUpdate, hk, hk', h]
      · simp [lookupA, mapUpdate, hk, hk', ih]

theorem keys_mapUpdate {α : Type} (l : List (Val × α)) (d : Val) (f : α → α) :
    (mapUpdate l d f).map Prod.fst = l.map Prod.fst := by
  induction l with
  | nil => simp [mapUpdate]
  | cons p t ih =>
    by_cases hk : p.1 = d
    · simp [mapUpdate, hk]
    · simp [mapUpdate, hk, ih]

theorem lookupA_mem {α : Type} (l : List (Val × α)) (d : Val) (x : α)
    (h : lookupA l d = some x) : (d, x) ∈ l := by
  induction l with
  | nil => simp [lookupA] at h
  | cons p t ih =>
    by_cases hk : p.1 = d
    · simp only [lookupA, hk, if_true, Option.some.injEq] at h
      have : p = (d, x) := by
        cases p
        simp_all
      rw [this]
      exact List.mem_cons_self _ _
    · simp only [lookupA, hk, if_false] at h
      exact List.mem_cons_of_mem _ (ih h)

theorem lookupA_of_mem_nodup {α : Type} (l : List (Val × α)) (d : Val) (x : α)
    (hnd : (l.map Prod.fst).Nodup) (h : (d, x) ∈ l) : lookupA l d = some x := by
  induction l with
  | nil => simp at h
  | cons p t ih =>
    simp only [List.map, List.nodup_cons] at hnd
    rcases List.mem_cons.mp h with h' | h'
    · simp [lookupA, ← h']
    · have hd : ¬ p.1 = d := by
        intro he
        exact hnd.1 (he ▸ (List.mem_map.mpr ⟨(d, x), h', rfl⟩))
      simp only [lookupA, hd, if_false]
      exact ih hnd.2 h'

theorem getD_set_self (st : Store) (p : Nat) (r : Rec) (hp : p < st.length) :
    (st.set p r).getD p [] = r := by
  induction st generalizing p with
  | nil => simp at hp
  | cons a t ih =>
    cases p with
    | zero => simp [List.set, List.getD]
    | succ n =>
      simp only [List.set, List.getD, List.get?]
      exact ih n (by simpa using hp)

theorem getD_set_ne (st : Store) (p q : Nat) (r : Rec) (h : q ≠ p) :
    (st.set p r).getD q [] = st.getD q [] := by
  induction st generalizing p q with
  | nil => simp [List.set]
  | cons a t ih =>
    cases p with
    | zero =>
      cases q with
      | zero => exact absurd rfl h
      | succ m => simp [List.set, List.getD]
    | succ n =>
      cases q with
      | zero => simp [List.set, List.getD]
      | succ m =>
        simp only [List.set, List.getD, List.get?]
        exact ih n m (fun he => h (by rw [he]))

theorem length_set_store (st : Store) (p : Nat) (r : Rec) :
    (st.set p r).length = st.length := List.length_set st p r

theorem idxOf_eq_none (d : Val) (l : List Val) : idxOf d l = none ↔ d ∉ l := by
  induction l with
  | nil => simp [idxOf]
  | cons x xs ih =>
    by_cases hx : x = d
    · simp [idxOf, hx]
    · have hmap : (idxOf d xs).map (· + 1) = none ↔ idxOf d xs = none := Option.map_eq_none'
      simp only [idxOf, hx, if_false, List.mem_cons]
      rw [hmap, ih]
      constructor
      · intro hn hc
        rcases hc with hc | hc
        · exact hx hc.symm
        · exact hn hc
      · intro hn hc
        exact hn (Or.inr hc)

theorem accumLoop_lookup (w : Rat) (kc : Nat) (l : List (Val × Nat)) (r0 : Nat)
    (ds : List (Val × Rat)) (dm : List (Val × Nat)) (d : Val)
    (hnd : (l.map Prod.fst).Nodup) :
    lookupA (accumLoop w kc l r0 (ds, dm)).1 d =
      match idxOf d (l.map Prod.fst) with
      | some i => some ((lookupA ds d).getD 0 + w / ((kc : Rat) + (r0 + i) + 1))
      | none => lookupA ds d := by
  induction l generalizing r0 ds dm with
  | nil => simp [accumLoop, idxOf]
  | cons hd rest ih =>
    obtain ⟨d0, p0⟩ := hd
    simp only [List.map, List.nodup_cons] at hnd
    have step : accumLoop w kc ((d0, p0) :: rest) r0 (ds, dm) =
        accumLoop w kc rest (r0 + 1)
          (mapUpdate (if (lookupA ds d0).isNone then (ds ++ [(d0, 0)], dm ++ [(d0, p0)])
            else (ds, dm)).1 d0 (fun x => x + w / ((kc : Rat) + r0 + 1)),
           (if (lookupA ds d0).isNone then (ds ++ [(d0, 0)], dm ++ [(d0, p0)])
            else (ds, dm)).2) := rfl
    by_cases hdd : d0 = d
    · subst hdd
      have hni : idxOf d0 (d0 :: rest.map Prod.fst) = some 0 := by simp [idxOf]
      rw [step, ih _ _ _ hnd.2]
      have hnr : idxOf d0 (rest.map Prod.fst) = none := (idxOf_eq_none _ _).mpr hnd.1
      simp only [List.map, hni, hnr]
      have hupd : lookupA (mapUpdate (if (lookupA ds d0).isNone then
          (ds ++ [(d0, 0)], dm ++ [(d0, p0)]) else (ds, dm)).1 d0
            (fun x => x + w / ((kc : Rat) + r0 + 1))) d0 =
          some ((lookupA ds d0).getD 0 + w / ((kc : Rat) + r0 + 1)) := by
        cases hds : lookupA ds d0 with
        | none =>
          have h0 : lookupA (ds ++ [(d0, 0)]) d0 = some 0 := by
            rw [lookupA_append_right _ _ _ ((lookupA_eq_none _ _).mp hds)]
            simp [lookupA]
          simp [hds, lookupA_mapUpdate_self, h0]
        | some x => simp [hds, lookupA_mapUpdate_self]
      rw [hupd]
      norm_num
    · have hni : idxOf d (d0 :: rest.map Prod.fst) = (idxOf d (rest.map Prod.fst)).map (· + 1) := by
        simp [idxOf, hdd]
      rw [step, ih _ _ _ hnd.2]
      have hlk : lookupA (mapUpdate (if (lookupA ds d0).isNone then
          (ds ++ [(d0, 0)], dm ++ [(d0, p0)]) else (ds, dm)).1 d0
            (fun x => x + w / ((kc : Rat) + r0 + 1))) d = lookupA ds d := by
        rw [lookupA_mapUpdate_ne _ _ _ _ (Ne.symm hdd)]
        cases hds0 : lookupA ds d0 with
        | none =>
          simp only [hds0, Option.isNone_none, if_true]
          by_cases hds : (lookupA ds d).isSome
          · exact lookupA_append_left _ _ _ hds
          · have h1 : lookupA ds d = none := Option.not_isSome_iff_eq_none.mp hds
            rw [lookupA_append_right _ _ _ ((lookupA_eq_none _ _).mp h1), h1]
            simp [lookupA, hdd]
        | some x => simp [hds0]
      rw [hlk]
      simp only [List.map_cons]
      rw [hni]
      cases hr : idxOf d (rest.map Prod.fst) with
      | none => simp
      | some i =>
        simp only [Option.map]
        congr 2
        push_cast
        ring

theorem accumLoop_keys (w : Rat) (kc : Nat) (l : List (Val × Nat)) (r0 : Nat)
    (ds : List (Val × Rat)) (dm : List (Val × Nat))
    (hnd : (l.map Prod.fst).Nodup) :
    (accumLoop w kc l r0 (ds, dm)).1.map Prod.fst =
      ds.map Prod.fst ++ (l.map Prod.fst).filter (fun d => !(d ∈ ds.map Prod.fst : Bool)) ∧
    (accumLoop w kc l r0 (ds, dm)).2 =
      dm ++ l.filter (fun dp => !(dp.1 ∈ ds.map Prod.fst : Bool)) := by
  induction l generalizing r0 ds dm with
  | nil => simp [accumLoop]
  | cons hd rest ih =>
    obtain ⟨d0, p0⟩ := hd
    simp only [List.map, List.nodup_cons] at hnd
    by_cases hn : (lookupA ds d0).isNone
    · have hmem : d0 ∉ ds.map Prod.fst :=
        (lookupA_eq_none _ _).mp (Option.isNone_iff_eq_none.mp hn)
      have step : accumLoop w kc ((d0, p0) :: rest) r0 (ds, dm) =
          accumLoop w kc rest (r0 + 1)
            (mapUpdate (ds ++ [(d0, 0)]) d0 (fun x => x + w / ((kc : Rat) + r0 + 1)),
             dm ++ [(d0, p0)]) := by
        simp [accumLoop, hn]
      obtain ⟨ihk, ihm⟩ := ih (r0 + 1)
        (mapUpdate (ds ++ [(d0, 0)]) d0 (fun x => x + w / ((kc : Rat) + r0 + 1)))
        (dm ++ [(d0, p0)]) hnd.2
      have hkeys : (mapUpdate (ds ++ [(d0, 0)]) d0
          (fun x => x + w / ((kc : Rat) + r0 + 1))).map Prod.fst =
          ds.map Prod.fst ++ [d0] := by
        rw [keys_mapUpdate]
        simp
      constructor
      · rw [step, ihk, hkeys]
        have hfilter : (rest.map Prod.fst).filter
            (fun d => !(d ∈ ds.map Prod.fst ++ [d0] : Bool)) =
            (rest.map Prod.fst).filter (fun d => !(d ∈ ds.map Prod.fst : Bool)) := by
          apply List.filter_congr
          intro x hx
          have hxd : x ≠ d0 := by
            intro he
            exact hnd.1 (he ▸ hx)
          simp [hxd]
        simp [hfilter, hmem]
      · rw [step, ihm, hkeys]
        have hfilter : rest.filter (fun dp => !(dp.1 ∈ ds.map Prod.fst ++ [d0] : Bool)) =
            rest.filter (fun dp => !(dp.1 ∈ ds.map Prod.fst : Bool)) := by
          apply List.filter_congr
          intro x hx
          have hxd : x.1 ≠ d0 := by
            intro he
            exact hnd.1 (he ▸ (List.mem_map.mpr ⟨x, hx, rfl⟩))
          simp [hxd]
        simp [hfilter, hmem]
    · have hmem : d0 ∈ ds.map Prod.fst := by
        by_contra hc
        exact hn (Option.isNone_iff_eq_none.mpr ((lookupA_eq_none _ _).mpr hc))
      have step : accumLoop w kc ((d0, p0) :: rest) r0 (ds, dm) =
          accumLoop w kc rest (r0 + 1)
            (mapUpdate ds d0 (fun x => x + w / ((kc : Rat) + r0 + 1)), dm) := by
        simp [accumLoop, hn]
      obtain ⟨ihk, ihm⟩ := ih (r0 + 1)
        (mapUpdate ds d0 (fun x => x + w / ((kc : Rat) + r0 + 1))) dm hnd.2
      constructor
      · rw [step, ihk, keys_mapUpdate]
        simp [hmem]
      · rw [step, ihm, keys_mapUpdate]
        simp [hmem]

theorem set_oob (st : Store) (p : Nat) (r : Rec) (h : st.length ≤ p) : st.set p r = st := by
  induction st generalizing p with
  | nil => simp [List.set]
  | cons a t ih =>
    cases p with
    | zero => simp at h
    | succ n =>
      simp only [List.set, List.cons.injEq, true_and]
      exact ih n (by simpa using h)

/-- Writing one field of the record at `p` changes no other field of any
record in the store. -/
theorem frame_set_setField (st : Store) (p : Nat) (key : String) (v : Val)
    (i : Nat) (k : String) (hk : k ≠ key) :
    getField ((st.set p (setField (st.getD p []) key v)).getD i []) k
      = getField (st.getD i []) k := by
  by_cases hip : i = p
  · subst hip
    by_cases hp : i < st.length
    · rw [getD_set_self _ _ _ hp, getField_setField_ne _ _ _ _ hk]
    · rw [set_oob _ _ _ (le_of_not_lt hp)]
  · rw [getD_set_ne _ _ _ _ hip]

theorem vecLoop_frame (w : List (String × Rat)) (kc : Nat) (ptrs : List Nat)
    (r0 : Nat) (st : Store) (ds : List (Val × Rat)) (dm : List (Val × Nat))
    (st' : Store) (ds' : List (Val × Rat)) (dm' : List (Val × Nat))
    (h : vecLoop w kc ptrs r0 st ds dm = .ok (st', ds', dm')) :
    st'.length = st.length ∧
    ∀ i k, k ≠ "vector_rank" → k ≠ "vector_score" →
      getField (st'.getD i []) k = getField (st.getD i []) k := by
  induction ptrs generalizing r0 st ds dm with
  | nil =>
    simp only [vecLoop, Except.ok.injEq, Prod.mk.injEq] at h
    obtain ⟨h1, h2, h3⟩ := h
    subst h1
    exact ⟨rfl, fun i k _ _ => rfl⟩
  | cons p rest ih =>
    simp only [vecLoop] at h
    cases hdoc : getDocId (st.getD p []) with
    | error e => simp only [hdoc] at h; exact Except.noConfusion h
    | ok d =>
      simp only [hdoc] at h
      cases hw : lookupW w "vector" with
      | error e => simp only [hw] at h; exact Except.noConfusion h
      | ok wv =>
        simp only [hw] at h
        obtain ⟨hlen, hframe⟩ := ih _ _ _ _ h
        constructor
        · rw [hlen]
          simp [length_set_store]
        · intro i k hk1 hk2
          rw [hframe i k hk1 hk2]
          rw [frame_set_setField _ _ _ _ _ _ hk2]
          rw [frame_set_setField _ _ _ _ _ _ hk1]

theorem fuzLoop_frame (w : List (String × Rat)) (kc : Nat) (ptrs : List Nat)
    (r0 : Nat) (st : Store) (ds : List (Val × Rat)) (dm : List (Val × Nat))
    (st' : Store) (ds' : List (Val × Rat)) (dm' : List (Val × Nat))
    (h : fuzLoop w kc ptrs r0 st ds dm = .ok (st', ds', dm')) :
    st'.length = st.length ∧
    ∀ i k, k ≠ "fuzzy_rank" → k ≠ "fuzzy_score" → k ≠ "fuzzy_type" →
      getField (st'.getD i []) k = getField (st.getD i []) k := by
  induction ptrs generalizing r0 st ds dm with
  | nil =>
    simp only [fuzLoop, Except.ok.injEq, Prod.mk.injEq] at h
    obtain ⟨h1, h2, h3⟩ := h
    subst h1
    exact ⟨rfl, fun i k _ _ _ => rfl⟩
  | cons p rest ih =>
    simp only [fuzLoop] at h
    cases hdoc : getDocId (st.getD p []) with
    | error e => simp only [hdoc] at h; exact Except.noConfusion h
    | ok d =>
      simp only [hdoc] at h
      cases hw : lookupW w "fuzzy" with
      | error e => simp only [hw] at h; exact Except.noConfusion h
      | ok wf =>
        simp only [hw] at h
        by_cases hreg : (lookupA (if (lookupA ds d).isNone then
            (ds ++ [(d, 0)], dm ++ [(d, p)]) else (ds, dm)).2 d).isSome
        · rw [if_pos hreg] at h
          obtain ⟨hlen, hframe⟩ := ih _ _ _ _ h
          refine ⟨by rw [hlen]; simp [length_set_store], ?_⟩
          intro i k hk1 hk2 hk3
          rw [hframe i k hk1 hk2 hk3]
          rw [frame_set_setField _ _ _ _ _ _ hk3]
          rw [frame_set_setField _ _ _ _ _ _ hk2]
          rw [frame_set_setField _ _ _ _ _ _ hk1]
        · rw [if_neg hreg] at h
          obtain ⟨hlen, hframe⟩ := ih _ _ _ _ h
          exact ⟨hlen, fun i k hk1 hk2 hk3 => hframe i k hk1 hk2 hk3⟩

theorem vecLoop_accum (w : List (String × Rat)) (kc : Nat) (ptrs : List Nat)
    (r0 : Nat) (st : Store) (ds : List (Val × Rat)) (dm : List (Val × Nat))
    (wv : Rat) (hw : lookupW w "vector" = .ok wv)
    (hdoc : ∀ p ∈ ptrs, (getField (st.getD p []) "doc_id").isSome) :
    ∃ st', vecLoop w kc ptrs r0 st ds dm =
      .ok (st', (accumLoop wv kc (idPtrs st ptrs) r0 (ds, dm)).1,
        (accumLoop wv kc (idPtrs st ptrs) r0 (ds, dm)).2) := by
  induction ptrs generalizing r0 st ds dm with
  | nil => exact ⟨st, rfl⟩
  | cons p rest ih =>
    have hp := hdoc p (List.mem_cons_self _ _)
    obtain ⟨d, hd⟩ := Option.isSome_iff_exists.mp hp
    have hdid : docIdD st p = d := by simp only [docIdD, hd, Option.getD_some]
    set dm1 := (if (lookupA ds d).isNone then (ds ++ [(d, 0)], dm ++ [(d, p)])
      else (ds, dm)).2 with hdm1
    set q := (lookupA dm1 d).getD 0 with hq
    set st1 := st.set q (setField (st.getD q []) "vector_rank" (.vn r0)) with hst1
    set st2 := st1.set q (setField (st1.getD q []) "vector_score"
      ((getField (st.getD p []) "score").getD (.vn 0))) with hst2
    have hframe2 : ∀ i k, k ≠ "vector_rank" → k ≠ "vector_score" →
        getField (st2.getD i []) k = getField (st.getD i []) k := by
      intro i k hk1 hk2
      rw [hst2, frame_set_setField _ _ _ _ _ _ hk2, hst1,
        frame_set_setField _ _ _ _ _ _ hk1]
    have hdoc2 : ∀ q ∈ rest, (getField (st2.getD q []) "doc_id").isSome := by
      intro q hq
      rw [hframe2 q "doc_id" (by decide) (by decide)]
      exact hdoc q (List.mem_cons_of_mem _ hq)
    have hids2 : idPtrs st2 rest = idPtrs st rest := by
      simp only [idPtrs]
      apply List.map_congr_left
      intro q _
      rw [Prod.mk.injEq]
      refine ⟨?_, rfl⟩
      simp only [docIdD]
      rw [hframe2 q "doc_id" (by decide) (by decide)]
    obtain ⟨st', hrec⟩ := ih _ st2 (mapUpdate (if (lookupA ds d).isNone then
        (ds ++ [(d, 0)], dm ++ [(d, p)]) else (ds, dm)).1 d
        (fun x => x + wv / ((kc : Rat) + r0 + 1))) dm1 hdoc2
    refine ⟨st', ?_⟩
    have hstep : vecLoop w kc (p :: rest) r0 st ds dm =
        vecLoop w kc rest (r0 + 1) st2 (mapUpdate (if (lookupA ds d).isNone then
          (ds ++ [(d, 0)], dm ++ [(d, p)]) else (ds, dm)).1 d
          (fun x => x + wv / ((kc : Rat) + r0 + 1))) dm1 := by
      simp only [vecLoop]
      rw [show getDocId (st.getD p []) = .ok d by unfold getDocId; rw [hd], hw]
    rw [hstep, hrec]
    have haccum : accumLoop wv kc (idPtrs st (p :: rest)) r0 (ds, dm) =
        accumLoop wv kc (idPtrs st rest) (r0 + 1)
          (mapUpdate (if (lookupA ds d).isNone then
            (ds ++ [(d, 0)], dm ++ [(d, p)]) else (ds, dm)).1 d
            (fun x => x + wv / ((kc : Rat) + r0 + 1)),
           (if (lookupA ds d).isNone then (ds ++ [(d, 0)], dm ++ [(d, p)])
            else (ds, dm)).2) := by
      simp only [idPtrs, List.map_cons, accumLoop, hdid]
    rw [haccum, ← hids2]

theorem fuzLoop_accum (w : List (String × Rat)) (kc : Nat) (ptrs : List Nat)
    (r0 : Nat) (st : Store) (ds : List (Val × Rat)) (dm : List (Val × Nat))
    (wf : Rat) (hw : lookupW w "fuzzy" = .ok wf)
    (hdoc : ∀ p ∈ ptrs, (getField (st.getD p []) "doc_id").isSome) :
    ∃ st', fuzLoop w kc ptrs r0 st ds dm =
      .ok (st', (accumLoop wf kc (idPtrs st ptrs) r0 (ds, dm)).1,
        (accumLoop wf kc (idPtrs st ptrs) r0 (ds, dm)).2) := by
  induction ptrs generalizing r0 st ds dm with
  | nil => exact ⟨st, rfl⟩
  | cons p rest ih =>
    have hp := hdoc p (List.mem_cons_self _ _)
    obtain ⟨d, hd⟩ := Option.isSome_iff_exists.mp hp
    have hdid : docIdD st p = d := by simp only [docIdD, hd, Option.getD_some]
    set dm1 := (if (lookupA ds d).isNone then (ds ++ [(d, 0)], dm ++ [(d, p)])
      else (ds, dm)).2 with hdm1
    set st2 := if (lookupA dm1 d).isSome then
        (let q := (lookupA dm1 d).getD 0
         let s1 := st.set q (setField (st.getD q []) "fuzzy_rank" (.vn r0))
         let s2 := s1.set q (setField (s1.getD q []) "fuzzy_score"
           ((getField (st.getD p []) "score").getD (.vn 0)))
         s2.set q (setField (s2.getD q []) "fuzzy_type"
           ((getField (st.getD p []) "type").getD (.vs ""))))
      else st with hst2
    have hframe2 : ∀ i k, k ≠ "fuzzy_rank" → k ≠ "fuzzy_score" → k ≠ "fuzzy_type" →
        getField (st2.getD i []) k = getField (st.getD i []) k := by
      intro i k hk1 hk2 hk3
      rw [hst2]
      by_cases hq : (lookupA dm1 d).isSome
      · rw [if_pos hq]
        simp only
        rw [frame_set_setField _ _ _ _ _ _ hk3, frame_set_setField _ _ _ _ _ _ hk2,
          frame_set_setField _ _ _ _ _ _ hk1]
      · rw [if_neg hq]
    have hdoc2 : ∀ q ∈ rest, (getField (st2.getD q []) "doc_id").isSome := by
      intro q hq
      rw [hframe2 q "doc_id" (by decide) (by decide) (by decide)]
      exact hdoc q (List.mem_cons_of_mem _ hq)
    have hids2 : idPtrs st2 rest = idPtrs st rest := by
      simp only [idPtrs]
      apply List.map_congr_left
      intro q _
      rw [Prod.mk.injEq]
      refine ⟨?_, rfl⟩
      simp only [docIdD]
      rw [hframe2 q "doc_id" (by decide) (by decide) (by decide)]
    obtain ⟨st', hrec⟩ := ih _ st2 (mapUpdate (if (lookupA ds d).isNone then
        (ds ++ [(d, 0)], dm ++ [(d, p)]) else (ds, dm)).1 d
        (fun x => x + wf / ((kc : Rat) + r0 + 1))) dm1 hdoc2
    refine ⟨st', ?_⟩
    have hstep : fuzLoop w kc (p :: rest) r0 st ds dm =
        fuzLoop w kc rest (r0 + 1) st2 (mapUpdate (if (lookupA ds d).isNone then
          (ds ++ [(d, 0)], dm ++ [(d, p)]) else (ds, dm)).1 d
          (fun x => x + wf / ((kc : Rat) + r0 + 1))) dm1 := by
      simp only [fuzLoop]
      rw [show getDocId (st.getD p []) = .ok d by unfold getDocId; rw [hd], hw]
    rw [hstep, hrec]
    have haccum : accumLoop wf kc (idPtrs st (p :: rest)) r0 (ds, dm) =
        accumLoop wf kc (idPtrs st rest) (r0 + 1)
          (mapUpdate (if (lookupA ds d).isNone then
            (ds ++ [(d, 0)], dm ++ [(d, p)]) else (ds, dm)).1 d
            (fun x => x + wf / ((kc : Rat) + r0 + 1)), dm1) := by
      simp only [idPtrs, List.map_cons, accumLoop, hdid, hdm1]
    rw [haccum, ← hids2]

theorem insertDescBy_perm {α : Type} (key : α → Rat) (x : α) (l : List α) :
    (insertDescBy key x l).Perm (x :: l) := by
  induction l with
  | nil => simp [insertDescBy]
  | cons y ys ih =>
    by_cases h : key y < key x
    · simp [insertDescBy, h]
    · simp only [insertDescBy, h, if_false]
      exact (ih.cons y).trans (List.Perm.swap x y ys)

theorem foldl_insertDescBy_perm {α : Type} (key : α → Rat) (l acc : List α) :
    (l.foldl (fun a x => insertDescBy key x a) acc).Perm (acc ++ l) := by
  induction l generalizing acc with
  | nil => simp
  | cons x xs ih =>
    simp only [List.foldl_cons]
    exact (ih _).trans (((insertDescBy_perm key x acc).append_right xs).trans
      List.perm_middle.symm)

theorem stableSortDescBy_perm {α : Type} (key : α → Rat) (l : List α) :
    (stableSortDescBy key l).Perm l := by
  have := foldl_insertDescBy_perm key l []
  simpa [stableSortDescBy] using this

theorem insertDescBy_chain {α : Type} (key : α → Rat) (x : α) (l : List α)
    (h : List.Chain' (fun a b => key b ≤ key a) l) :
    List.Chain' (fun a b => key b ≤ key a) (insertDescBy key x l) := by
  induction l with
  | nil => simp [insertDescBy]
  | cons y ys ih =>
    by_cases hlt : key y < key x
    · simp only [insertDescBy, hlt, if_true]
      exact List.Chain'.cons (le_of_lt hlt) h
    · simp only [insertDescBy, hlt, if_false]
      have htail := List.Chain'.tail h
      have hins := ih htail
      cases ys with
      | nil =>
        simp only [insertDescBy]
        exact List.chain'_cons.mpr ⟨le_of_not_lt hlt, List.chain'_singleton x⟩
      | cons z zs =>
        by_cases hz : key z < key x
        · simp only [insertDescBy, hz, if_true] at hins ⊢
          exact List.chain'_cons.mpr ⟨le_of_not_lt hlt, hins⟩
        · simp only [insertDescBy, hz, if_false] at hins ⊢
          have hyz : key z ≤ key y := (List.chain'_cons.mp h).1
          exact List.chain'_cons.mpr ⟨hyz, hins⟩

theorem foldl_insertDescBy_chain {α : Type} (key : α → Rat) (l acc : List α)
    (h : List.Chain' (fun a b => key b ≤ key a) acc) :
    List.Chain' (fun a b => key b ≤ key a)
      (l.foldl (fun a x => insertDescBy key x a) acc) := by
  induction l generalizing acc with
  | nil => exact h
  | cons x xs ih =>
    simp only [List.foldl_cons]
    exact ih _ (insertDescBy_chain key x acc h)

theorem stableSortDescBy_chain {α : Type} (key : α → Rat) (l : List α) :
    List.Chain' (fun a b => key b ≤ key a) (stableSortDescBy key l) :=
  foldl_insertDescBy_chain key l [] List.chain'_nil

theorem buildFused_eq_map (st : Store) (dm : List (Val × Nat)) (l : List (Val × Rat)) :
    buildFused st dm l = l.map (fun pr =>
      setField (setField (st.getD ((lookupA dm pr.1).getD 0) []) "fused_score" (.vr pr.2))
        "fusion_method" (.vs "RRF")) := by
  induction l with
  | nil => simp [buildFused]
  | cons pr rest ih =>
    obtain ⟨d, sc⟩ := pr
    simp [buildFused, ih]

theorem idPtrs_map_fst (st : Store) (ptrs : List Nat) :
    (idPtrs st ptrs).map Prod.fst = docIds st ptrs := by
  simp [idPtrs, docIds, List.map_map]

theorem map_fst_filter_fst {α : Type} (q : Val → Bool) (l : List (Val × α)) :
    (l.filter (fun dp => q dp.1)).map Prod.fst = (l.map Prod.fst).filter q := by
  induction l with
  | nil => simp
  | cons p t ih =>
    by_cases hq : q p.1
    · simp [List.filter, hq, ih]
    · simp only [List.filter, List.map, hq]
      exact ih

theorem union_nodup (v f : List Val) (hv : v.Nodup) (hf : f.Nodup) :
    (v ++ f.filter (fun d => !(decide (d ∈ v)))).Nodup := by
  refine List.Nodup.append hv (hf.filter _) ?_
  intro a hav haf
  have := List.of_mem_filter haf
  simp only [Bool.not_eq_true', decide_eq_false_iff_not] at this
  exact this hav

/-- C2: for pre-ranked input lists (distinct doc ids per list, both strategy
weights present), `fuse_results` assigns each distinct doc id the total
`Σ weights[s]/(k + rank + 1)` over the lists containing it, returns exactly
the distinct ids, sorted descending by that total; and on the spec's
end-to-end example (vector `[d1, d2]`, fuzzy `[d2, d3]`, weights
`{vector: 0.6, fuzzy: 0.4}`, `k = 60`) the fused order is `d2, d1, d3`. -/
theorem C2_fuse_scores_sorted (kc : Nat) (st : Store) (vec fuz : List Nat)
    (w : List (String × Rat)) (wv wf : Rat)
    (hwv : lookupW w "vector" = .ok wv) (hwf : lookupW w "fuzzy" = .ok wf)
    (hwvpos : 0 < wv) (hwfpos : 0 < wf)
    (hvdoc : ∀ p ∈ vec, (getField (st.getD p []) "doc_id").isSome)
    (hfdoc : ∀ p ∈ fuz, (getField (st.getD p []) "doc_id").isSome)
    (hvnd : (docIds st vec).Nodup) (hfnd : (docIds st fuz).Nodup) :
    (∃ st' out, fuseResults kc st vec fuz (some w) = .ok (st', out) ∧
      (out.map (fun r => (getField r "doc_id").getD (.vs ""))).Perm
        (docIds st vec ++ (docIds st fuz).filter
          (fun d => !(decide (d ∈ docIds st vec)))) ∧
      (∀ r ∈ out, getField r "fused_score" =
        some (.vr (rrfTotal wv wf kc (docIds st vec) (docIds st fuz)
          ((getField r "doc_id").getD (.vs ""))))) ∧
      List.Chain' (fun a b => fusedScoreD b ≤ fusedScoreD a) out) ∧
    exFusedDocIds = some [.vs "d2", .vs "d1", .vs "d3"] := by
  constructor
  · -- general part
    obtain ⟨stA, hA⟩ := vecLoop_accum w kc vec 0 st [] [] wv hwv hvdoc
    obtain ⟨lenA, frameA⟩ := vecLoop_frame _ _ _ _ _ _ _ _ _ _ hA
    have hfdocA : ∀ p ∈ fuz, (getField (stA.getD p []) "doc_id").isSome := by
      intro p hp
      rw [frameA p "doc_id" (by decide) (by decide)]
      exact hfdoc p hp
    set dsA := (accumLoop wv kc (idPtrs st vec) 0 ([], [])).1 with hdsA
    set dmA := (accumLoop wv kc (idPtrs st vec) 0 ([], [])).2 with hdmA
    obtain ⟨stB, hB⟩ := fuzLoop_accum w kc fuz 0 stA dsA dmA wf hwf hfdocA
    have hidsA : idPtrs stA fuz = idPtrs st fuz := by
      simp only [idPtrs]
      apply List.map_congr_left
      intro q _
      rw [Prod.mk.injEq]
      refine ⟨?_, rfl⟩
      simp only [docIdD]
      rw [frameA q "doc_id" (by decide) (by decide)]
    rw [hidsA] at hB
    obtain ⟨lenB, frameB⟩ := fuzLoop_frame _ _ _ _ _ _ _ _ _ _ hB
    set dsB := (accumLoop wf kc (idPtrs st fuz) 0 (dsA, dmA)).1 with hdsB
    set dmB := (accumLoop wf kc (idPtrs st fuz) 0 (dsA, dmA)).2 with hdmB
    set sorted := stableSortDescBy (fun p : Val × Rat => p.2) dsB with hsorted
    have hfuse : fuseResults kc st vec fuz (some w) =
        .ok (stB, buildFused stB dmB sorted) := by
      simp only [fuseResults, Option.getD_some, hA, hB]
    -- key-structure facts
    have hvmf : (idPtrs st vec).map Prod.fst = docIds st vec := idPtrs_map_fst st vec
    have hfmf : (idPtrs st fuz).map Prod.fst = docIds st fuz := idPtrs_map_fst st fuz
    have hvndp : ((idPtrs st vec).map Prod.fst).Nodup := by rw [hvmf]; exact hvnd
    have hfndp : ((idPtrs st fuz).map Prod.fst).Nodup := by rw [hfmf]; exact hfnd
    obtain ⟨hkeysA, hmetaA⟩ := accumLoop_keys wv kc (idPtrs st vec) 0 [] [] hvndp
    have hkeysA' : dsA.map Prod.fst = docIds st vec := by
      rw [← hdsA] at hkeysA
      simpa [hvmf] using hkeysA
    have hmetaA' : dmA = idPtrs st vec := by
      rw [← hdmA] at hmetaA
      simpa using hmetaA
    obtain ⟨hkeysB, hmetaB⟩ := accumLoop_keys wf kc (idPtrs st fuz) 0 dsA dmA hfndp
    have hkeysB' : dsB.map Prod.fst = docIds st vec ++ (docIds st fuz).filter
        (fun d => !(decide (d ∈ docIds st vec))) := by
      rw [← hdsB] at hkeysB
      rw [hkeysB, hkeysA', hfmf]
    have hmetaB' : dmB = idPtrs st vec ++ (idPtrs st fuz).filter
        (fun dp => !(decide (dp.1 ∈ docIds st vec))) := by
      rw [← hdmB] at hmetaB
      rw [hmetaB, hmetaA', hkeysA']
    have hUnd : (docIds st vec ++ (docIds st fuz).filter
        (fun d => !(decide (d ∈ docIds st vec)))).Nodup := union_nodup _ _ hvnd hfnd
    have hkeysdmB : dmB.map Prod.fst = docIds st vec ++ (docIds st fuz).filter
        (fun d => !(decide (d ∈ docIds st vec))) := by
      rw [hmetaB', List.map_append, hvmf,
        map_fst_filter_fst (fun d => !(decide (d ∈ docIds st vec))) (idPtrs st fuz), hfmf]
    -- registered pointers carry their doc id
    have hreg : ∀ d t, lookupA dmB d = some t →
        getField (st.getD t []) "doc_id" = some d := by
      intro d t hlt
      have hmem := lookupA_mem _ _ _ hlt
      rw [hmetaB'] at hmem
      rcases List.mem_append.mp hmem with hm | hm
      · obtain ⟨p, hp, he⟩ := List.mem_map.mp hm
        have he1 : docIdD st p = d := congrArg Prod.fst he
        have he2 : p = t := congrArg Prod.snd he
        obtain ⟨v, hv⟩ := Option.isSome_iff_exists.mp (hvdoc p hp)
        rw [← he2, hv]
        simp only [docIdD, hv, Option.getD_some] at he1
        rw [he1]
      · have hm' := List.mem_of_mem_filter hm
        obtain ⟨p, hp, he⟩ := List.mem_map.mp hm'
        have he1 : docIdD st p = d := congrArg Prod.fst he
        have he2 : p = t := congrArg Prod.snd he
        obtain ⟨v, hv⟩ := Option.isSome_iff_exists.mp (hfdoc p hp)
        rw [← he2, hv]
        simp only [docIdD, hv, Option.getD_some] at he1
        rw [he1]
    have hframeBA : ∀ i, getField (stB.getD i []) "doc_id" =
        getField (st.getD i []) "doc_id" := by
      intro i
      rw [frameB i _ (by decide) (by decide) (by decide),
        frameA i _ (by decide) (by decide)]
    -- score values
    have hval : ∀ pr : Val × Rat, pr ∈ dsB → pr.2 =
        rrfTotal wv wf kc (docIds st vec) (docIds st fuz) pr.1 := by
      intro pr hmem
      have hnodB : (dsB.map Prod.fst).Nodup := by rw [hkeysB']; exact hUnd
      have hlk : lookupA dsB pr.1 = some pr.2 :=
        lookupA_of_mem_nodup _ _ _ hnodB (by rw [Prod.mk.eta] at *; exact hmem)
      have h2 := accumLoop_lookup wf kc (idPtrs st fuz) 0 dsA dmA pr.1 hfndp
      have h1 := accumLoop_lookup wv kc (idPtrs st vec) 0 [] [] pr.1 hvndp
      rw [hvmf] at h1
      rw [hfmf] at h2
      rw [← hdsA] at h1
      rw [← hdsB] at h2
      rw [hlk] at h2
      unfold rrfTotal rrfContribution
      cases hiv : idxOf pr.1 (docIds st vec) with
      | some i =>
        rw [hiv] at h1
        simp only [lookupA] at h1
        cases hif : idxOf pr.1 (docIds st fuz) with
        | some j =>
          rw [hif] at h2
          rw [h1] at h2
          simp only [Option.getD_some] at h2
          have heq := Option.some.inj h2
          rw [heq]
          simp only [Option.getD_none]
          push_cast
          ring
        | none =>
          rw [hif] at h2
          rw [h1] at h2
          have heq := Option.some.inj h2
          rw [heq]
          simp only [Option.getD_none]
          push_cast
          ring
      | none =>
        rw [hiv] at h1
        simp only [lookupA] at h1
        cases hif : idxOf pr.1 (docIds st fuz) with
        | some j =>
          rw [hif] at h2
          rw [h1] at h2
          have heq := Option.some.inj h2
          rw [heq]
          simp only [Option.getD_none]
          push_cast
          ring
        | none =>
          rw [hif] at h2
          rw [h1] at h2
          exact absurd h2 (by simp)
    -- membership of sorted elements
    have hsortperm : sorted.Perm dsB := stableSortDescBy_perm _ dsB
    have hmemdm : ∀ pr : Val × Rat, pr ∈ sorted →
        ∃ t, lookupA dmB pr.1 = some t := by
      intro pr hpr
      have h1 : pr.1 ∈ dmB.map Prod.fst := by
        rw [hkeysdmB, ← hkeysB']
        exact List.mem_map.mpr ⟨pr, hsortperm.mem_iff.mp hpr, rfl⟩
      cases hlt : lookupA dmB pr.1 with
      | none => exact absurd ((lookupA_eq_none _ _).mp hlt) (by simp [h1])
      | some t => exact ⟨t, rfl⟩
    have houteq := buildFused_eq_map stB dmB sorted
    -- doc id of each output record
    have hdocid : ∀ pr : Val × Rat, pr ∈ sorted →
        getField (setField (setField (stB.getD ((lookupA dmB pr.1).getD 0) [])
          "fused_score" (.vr pr.2)) "fusion_method" (.vs "RRF")) "doc_id"
          = some pr.1 := by
      intro pr hpr
      obtain ⟨t, ht⟩ := hmemdm pr hpr
      rw [getField_setField_ne _ _ _ _ (by decide),
        getField_setField_ne _ _ _ _ (by decide), ht, Option.getD_some,
        hframeBA t]
      exact hreg pr.1 t ht
    have hfsc : ∀ pr : Val × Rat,
        getField (setField (setField (stB.getD ((lookupA dmB pr.1).getD 0) [])
          "fused_score" (.vr pr.2)) "fusion_method" (.vs "RRF")) "fused_score"
          = some (.vr pr.2) := by
      intro pr
      rw [getField_setField_ne _ _ _ _ (by decide), getField_setField_self]
    refine ⟨stB, buildFused stB dmB sorted, hfuse, ?_, ?_, ?_⟩
    · -- permutation of distinct ids
      have hmapeq : (buildFused stB dmB sorted).map
          (fun r => (getField r "doc_id").getD (.vs "")) = sorted.map Prod.fst := by
        rw [houteq, List.map_map]
        apply List.map_congr_left
        intro pr hpr
        simp only [Function.comp]
        rw [hdocid pr hpr]
        rfl
      rw [hmapeq, ← hkeysB']
      exact hsortperm.map Prod.fst
    · -- fused scores
      intro r hr
      rw [houteq] at hr
      obtain ⟨pr, hpr, hfr⟩ := List.mem_map.mp hr
      rw [← hfr]
      rw [hfsc pr]
      have hd : (getField (setField (setField (stB.getD ((lookupA dmB pr.1).getD 0) [])
          "fused_score" (.vr pr.2)) "fusion_method" (.vs "RRF")) "doc_id").getD (.vs "")
          = pr.1 := by
        rw [hdocid pr hpr]
        rfl
      rw [hd]
      rw [← hval pr (hsortperm.mem_iff.mp hpr)]
    · -- sortedness
      rw [houteq]
      have hch := stableSortDescBy_chain (fun p : Val × Rat => p.2) dsB
      rw [← hsorted] at hch
      rw [List.chain'_map]
      refine hch.imp ?_
      intro a b hab
      have ha := hfsc a
      have hb := hfsc b
      simp only [fusedScoreD, ha, hb]
      exact hab
  · -- concrete end-to-end example
    simp +decide [exFusedDocIds, fuseResults, vecLoop, fuzLoop, lookupW, getDocId,
      getField, setField, lookupA, mapUpdate, stableSortDescBy, insertDescBy,
      buildFused, exStore, exD1v, exD2v, exD2f, exD3f, exWeights, docIdD]
    norm_num [insertDescBy, buildFused, getField, setField, lookupA]

/-- Witness for C2 at the spec's concrete example. -/
theorem C2_fuse_scores_sorted_witness :
    exFusedDocIds = some [.vs "d2", .vs "d1", .vs "d3"] :=
  (C2_fuse_scores_sorted 60 exStore [0, 1] [2, 3] exWeights (3/5) (2/5) rfl rfl
    (by norm_num) (by norm_num) (by decide) (by decide) (by decide) (by decide)).2

/-- C6 counterexample: `fuse_results` mutates the record of its input list in
place (it acquires `vector_rank`/`vector_score` fields), so the inputs are
not left unchanged. -/
theorem C6_counterexample_fuse_mutates :
    storeAfterFuse 60 [mutRec] [0] [] (some exWeights) =
      some [[("doc_id", .vs "d1"), ("score", .vr 1), ("vector_rank", .vn 0),
        ("vector_score", .vr 1)]] ∧
    some [[("doc_id", .vs "d1"), ("score", .vr 1), ("vector_rank", .vn 0),
        ("vector_score", .vr 1)]] ≠ some [mutRec] := by
  constructor
  · simp +decide [storeAfterFuse, fuseResults, vecLoop, fuzLoop, lookupW, getDocId,
      getField, setField, lookupA, mapUpdate, stableSortDescBy, insertDescBy,
      buildFused, mutRec, exWeights]
  · decide

/-- C6 amended: `fuse_results` alters input records only at the five
annotation fields (`vector_rank`, `vector_score`, `fuzzy_rank`,
`fuzzy_score`, `fuzzy_type`); it creates or destroys no record, and every
other field of every input record is unchanged. -/
theorem C6_fuse_frame (kc : Nat) (st : Store) (vec fuz : List Nat)
    (weights : Option (List (String × Rat))) (st' : Store) (out : List Rec)
    (h : fuseResults kc st vec fuz weights = .ok (st', out)) :
    st'.length = st.length ∧
    ∀ i k, k ≠ "vector_rank" → k ≠ "vector_score" → k ≠ "fuzzy_rank" →
      k ≠ "fuzzy_score" → k ≠ "fuzzy_type" →
      getField (st'.getD i []) k = getField (st.getD i []) k := by
  simp only [fuseResults] at h
  cases hA : vecLoop (weights.getD [("vector", (3 : Rat)/5), ("fuzzy", (2 : Rat)/5)])
      kc vec 0 st [] [] with
  | error e => rw [hA] at h; exact Except.noConfusion h
  | ok s1 =>
    obtain ⟨sA, dsA, dmA⟩ := s1
    rw [hA] at h
    dsimp only at h
    cases hB : fuzLoop (weights.getD [("vector", (3 : Rat)/5), ("fuzzy", (2 : Rat)/5)])
        kc fuz 0 sA dsA dmA with
    | error e => rw [hB] at h; exact Except.noConfusion h
    | ok s2 =>
      obtain ⟨sB, dsB, dmB⟩ := s2
      rw [hB] at h
      dsimp only at h
      simp only [Except.ok.injEq, Prod.mk.injEq] at h
      obtain ⟨h1, h2⟩ := h
      subst h1
      obtain ⟨lenA, frameA⟩ := vecLoop_frame _ _ _ _ _ _ _ _ _ _ hA
      obtain ⟨lenB, frameB⟩ := fuzLoop_frame _ _ _ _ _ _ _ _ _ _ hB
      constructor
      · rw [lenB, lenA]
      · intro i k hk1 hk2 hk3 hk4 hk5
        rw [frameB i k hk3 hk4 hk5, frameA i k hk1 hk2]

/-- Witness for the C6 frame theorem (empty input lists; the store is
returned unchanged). -/
theorem C6_fuse_frame_witness :
    ∃ st' out, fuseResults 60 exStore [] [] (some exWeights) = .ok (st', out) ∧
      st'.length = exStore.length :=
  ⟨exStore, [], rfl, (C6_fuse_frame 60 exStore [] [] (some exWeights) exStore [] rfl).1⟩

/-- C8 counterexample: a weights mapping that omits the `vector` tag while
the vector list is non-empty makes `fuse_results` raise `KeyError` — the
missing weight is not defaulted to `0` and the call does not succeed. -/
theorem C8_counterexample_missing_weight_raises :
    fuseResults 60 [mutRec] [0] [] (some [("fuzzy", 1)]) =
      .error "KeyError: vector" := rfl

/-- C8 amended: a weights mapping that omits a strategy tag makes
`fuse_results` raise `KeyError` for that tag exactly when that strategy's
input list is non-empty. Part 1: a non-empty vector list with no
`"vector"` binding raises its `KeyError` (the head record's `doc_id` is
read first). Part 2: after a successful vector loop, a non-empty fuzzy
list with no `"fuzzy"` binding raises its `KeyError` - the distinct code
path of `fts_manager.py:450`. Parts 3 and 4: when the fuzzy (resp.
vector) list is empty, the call succeeds whenever the other loop does,
for ANY weights mapping - the missing weight is never read, and in
particular it is not defaulted to `0`. -/
theorem C8_missing_weight_key_error (kc : Nat) (st : Store)
    (w : List (String × Rat)) :
    (∀ p rest fuz e, (getField (st.getD p []) "doc_id").isSome →
      lookupW w "vector" = .error e →
      fuseResults kc st (p :: rest) fuz (some w) = .error e) ∧
    (∀ vec q rest' s1 e, vecLoop w kc vec 0 st [] [] = .ok s1 →
      (getField (s1.1.getD q []) "doc_id").isSome →
      lookupW w "fuzzy" = .error e →
      fuseResults kc st vec (q :: rest') (some w) = .error e) ∧
    (∀ vec s1, vecLoop w kc vec 0 st [] [] = .ok s1 →
      fuseResults kc st vec [] (some w) =
        .ok (s1.1, buildFused s1.1 s1.2.2
          (stableSortDescBy (fun x => x.2) s1.2.1))) ∧
    (∀ fuz s2, fuzLoop w kc fuz 0 st [] [] = .ok s2 →
      fuseResults kc st [] fuz (some w) =
        .ok (s2.1, buildFused s2.1 s2.2.2
          (stableSortDescBy (fun x => x.2) s2.2.1))) := by
  refine ⟨?_, ?_, ?_, ?_⟩
  · intro p rest fuz e hdoc hw
    obtain ⟨d, hd⟩ := Option.isSome_iff_exists.mp hdoc
    simp only [fuseResults, Option.getD_some]
    have hstep : vecLoop w kc (p :: rest) 0 st [] [] = .error e := by
      simp only [vecLoop]
      rw [show getDocId (st.getD p []) = .ok d by unfold getDocId; rw [hd], hw]
    rw [hstep]
  · intro vec q rest' s1 e hvec hdoc hw
    obtain ⟨d, hd⟩ := Option.isSome_iff_exists.mp hdoc
    simp only [fuseResults, Option.getD_some]
    rw [hvec]
    dsimp only
    have hstep : fuzLoop w kc (q :: rest') 0 s1.1 s1.2.1 s1.2.2 = .error e := by
      simp only [fuzLoop]
      rw [show getDocId (s1.1.getD q []) = .ok d by unfold getDocId; rw [hd], hw]
    rw [hstep]
  · intro vec s1 hvec
    simp only [fuseResults, Option.getD_some]
    rw [hvec]
    rfl
  · intro fuz s2 hfuz
    simp only [fuseResults, Option.getD_some]
    rw [show vecLoop w kc [] 0 st [] [] = .ok (st, [], []) from rfl]
    dsimp only
    rw [hfuz]

/-- Witness for the C8 amended theorem: the missing-`vector` `KeyError`, the
missing-`fuzzy` `KeyError` after the (empty) vector loop, and a successful
call with every weight missing but both lists empty. -/
theorem C8_missing_weight_key_error_witness :
    fuseResults 60 [mutRec] [0] [] (some [("fuzzy", 1)]) =
      .error "KeyError: vector" ∧
    fuseResults 60 [mutRec] [] [0] (some [("vector", 1)]) =
      .error "KeyError: fuzzy" ∧
    fuseResults 60 [mutRec] [] [] (some []) = .ok ([mutRec], []) :=
  ⟨(C8_missing_weight_key_error 60 [mutRec] [("fuzzy", 1)]).1 0 [] []
      "KeyError: vector" (by decide) rfl,
   (C8_missing_weight_key_error 60 [mutRec] [("vector", 1)]).2.1 [] 0 []
      ([mutRec], [], []) "KeyError: fuzzy" rfl (by decide) rfl,
   (C8_missing_weight_key_error 60 [mutRec] []).2.2.1 [] ([mutRec], [], []) rfl⟩

theorem snd_mem_of_mem_enumFrom {α : Type} (l : List α) (n : Nat) (pr : Nat × α)
    (h : pr ∈ List.enumFrom n l) : pr.2 ∈ l := by
  induction l generalizing n with
  | nil => simp [List.enumFrom] at h
  | cons x xs ih =>
    simp only [List.enumFrom, List.mem_cons] at h
    rcases h with h | h
    · subst h
      exact List.mem_cons_self _ _
    · exact List.mem_cons_of_mem _ (ih _ h)

theorem vecLoop_annot (w : List (String × Rat)) (kc : Nat) (ptrs : List Nat)
    (r0 : Nat) (st : Store) (ds : List (Val × Rat)) (dm : List (Val × Nat))
    (st' : Store) (ds' : List (Val × Rat)) (dm' : List (Val × Nat)) (wv : Rat)
    (hw : lookupW w "vector" = .ok wv)
    (hb : ∀ p ∈ ptrs, p < st.length)
    (hdoc : ∀ p ∈ ptrs, (getField (st.getD p []) "doc_id").isSome)
    (hnd : (docIds st ptrs).Nodup)
    (hdisj : ∀ p ∈ ptrs, docIdD st p ∉ ds.map Prod.fst)
    (hkeys : ds.map Prod.fst = dm.map Prod.fst)
    (h : vecLoop w kc ptrs r0 st ds dm = .ok (st', ds', dm')) :
    (∀ i, i ∉ ptrs → st'.getD i [] = st.getD i []) ∧
    ∀ pr ∈ List.enumFrom r0 ptrs,
      getField (st'.getD pr.2 []) "vector_rank" = some (.vn pr.1) ∧
      getField (st'.getD pr.2 []) "vector_score" =
        some ((getField (st.getD pr.2 []) "score").getD (.vn 0)) := by
  induction ptrs generalizing r0 st ds dm with
  | nil =>
    simp only [vecLoop, Except.ok.injEq, Prod.mk.injEq] at h
    obtain ⟨h1, _, _⟩ := h
    subst h1
    exact ⟨fun i _ => rfl, by simp [List.enumFrom]⟩
  | cons p rest ih =>
    have hptrnd : (p :: rest).Nodup := hnd.of_map (f := docIdD st)
    have hp := hdoc p (List.mem_cons_self _ _)
    obtain ⟨d, hd⟩ := Option.isSome_iff_exists.mp hp
    have hdid : docIdD st p = d := by simp only [docIdD, hd, Option.getD_some]
    have hndc : docIdD st p ∉ docIds st rest ∧ (docIds st rest).Nodup := by
      have hcons : docIds st (p :: rest) = docIdD st p :: docIds st rest := rfl
      rw [hcons] at hnd
      exact List.nodup_cons.mp hnd
    have hplen : p < st.length := hb p (List.mem_cons_self _ _)
    simp only [vecLoop] at h
    rw [show getDocId (st.getD p []) = .ok d by unfold getDocId; rw [hd], hw] at h
    dsimp only at h
    have hfresh : lookupA ds d = none := by
      rw [lookupA_eq_none]
      have := hdisj p (List.mem_cons_self _ _)
      rw [hdid] at this
      exact this
    rw [hfresh] at h
    simp only [Option.isNone_none, if_true] at h
    have hdm : d ∉ dm.map Prod.fst := by
      rw [← hkeys]
      exact (lookupA_eq_none _ _).mp hfresh
    have hlkdm : lookupA (dm ++ [(d, p)]) d = some p := by
      rw [lookupA_append_right _ _ _ hdm]
      simp [lookupA]
    rw [hlkdm] at h
    simp only [Option.getD_some] at h
    set st1 := st.set p (setField (st.getD p []) "vector_rank" (.vn r0)) with hst1
    set st2 := st1.set p (setField (st1.getD p []) "vector_score"
      ((getField (st.getD p []) "score").getD (.vn 0))) with hst2
    have hlen2 : st2.length = st.length := by
      rw [hst2, hst1]
      simp [length_set_store]
    have hframe2 : ∀ i k, k ≠ "vector_rank" → k ≠ "vector_score" →
        getField (st2.getD i []) k = getField (st.getD i []) k := by
      intro i k hk1 hk2
      rw [hst2, frame_set_setField _ _ _ _ _ _ hk2, hst1,
        frame_set_setField _ _ _ _ _ _ hk1]
    have hother2 : ∀ i, i ≠ p → st2.getD i [] = st.getD i [] := by
      intro i hip
      rw [hst2, getD_set_ne _ _ _ _ hip, hst1, getD_set_ne _ _ _ _ hip]
    have hrec2 : st2.getD p [] = setField (setField (st.getD p []) "vector_rank"
        (.vn r0)) "vector_score" ((getField (st.getD p []) "score").getD (.vn 0)) := by
      have h1len : p < st1.length := by rw [hst1, length_set_store]; exact hplen
      rw [hst2, getD_set_self _ _ _ h1len, hst1, getD_set_self _ _ _ hplen]
    have hb2 : ∀ q ∈ rest, q < st2.length := by
      intro q hq
      rw [hlen2]
      exact hb q (List.mem_cons_of_mem _ hq)
    have hdoc2 : ∀ q ∈ rest, (getField (st2.getD q []) "doc_id").isSome := by
      intro q hq
      rw [hframe2 q "doc_id" (by decide) (by decide)]
      exact hdoc q (List.mem_cons_of_mem _ hq)
    have hdocid2 : ∀ q, docIdD st2 q = docIdD st q := by
      intro q
      simp only [docIdD]
      rw [hframe2 q "doc_id" (by decide) (by decide)]
    have hids2 : docIds st2 rest = docIds st rest :=
      List.map_congr_left (fun q _ => hdocid2 q)
    have hnd2 : (docIds st2 rest).Nodup := by
      rw [hids2]
      exact hndc.2
    have hdisj2 : ∀ q ∈ rest, docIdD st2 q ∉
        (mapUpdate (ds ++ [(d, 0)]) d (fun x => x + wv / ((kc : Rat) + r0 + 1))).map
          Prod.fst := by
      intro q hq
      rw [hdocid2 q, keys_mapUpdate]
      simp only [List.map_append, List.mem_append]
      rintro (hin | hin)
      · exact hdisj q (List.mem_cons_of_mem _ hq) hin
      · simp only [List.map, List.mem_singleton] at hin
        have hmemq : docIdD st q ∈ docIds st rest := List.mem_map.mpr ⟨q, hq, rfl⟩
        rw [← hdid] at hin
        exact hndc.1 (hin ▸ hmemq)
    have hkeys2 : (mapUpdate (ds ++ [(d, 0)]) d
        (fun x => x + wv / ((kc : Rat) + r0 + 1))).map Prod.fst =
        (dm ++ [(d, p)]).map Prod.fst := by
      rw [keys_mapUpdate]
      simp [hkeys]
    obtain ⟨ihA, ihB⟩ := ih _ st2 _ _ hb2 hdoc2 hnd2 hdisj2 hkeys2 h
    have hpnotin : p ∉ rest := (List.nodup_cons.mp hptrnd).1
    constructor
    · intro i hi
      have hir : i ∉ rest := fun hc => hi (List.mem_cons_of_mem _ hc)
      have hip : i ≠ p := fun hc => hi (hc ▸ List.mem_cons_self _ _)
      rw [ihA i hir, hother2 i hip]
    · intro pr hpr
      simp only [List.enumFrom, List.mem_cons] at hpr
      rcases hpr with hpr | hpr
      · subst hpr
        have hA := ihA p hpnotin
        rw [hA, hrec2]
        constructor
        · rw [getField_setField_ne _ _ _ _ (by decide), getField_setField_self]
        · rw [getField_setField_self]
      · have := ihB pr hpr
        obtain ⟨h1, h2⟩ := this
        have hqrest : pr.2 ∈ rest := snd_mem_of_mem_enumFrom rest (r0 + 1) pr hpr
        refine ⟨h1, ?_⟩
        rw [h2, hother2 pr.2 ?_]
        intro hc
        exact hpnotin (hc ▸ hqrest)

theorem lookupA_append_singleton_ne {α : Type} (l : List (Val × α)) (d dq : Val)
    (x : α) (h : dq ≠ d) : lookupA (l ++ [(d, x)]) dq = lookupA l dq := by
  induction l with
  | nil => simp [lookupA, Ne.symm h]
  | cons p tl ih =>
    by_cases hp : p.1 = dq
    · simp [lookupA, hp]
    · simp [lookupA, hp, ih]

theorem fuzLoop_annot (w : List (String × Rat)) (kc : Nat) (ptrs : List Nat)
    (r0 : Nat) (st : Store) (ds : List (Val × Rat)) (dm : List (Val × Nat))
    (st' : Store) (ds' : List (Val × Rat)) (dm' : List (Val × Nat)) (wf : Rat)
    (hw : lookupW w "fuzzy" = .ok wf)
    (hb : ∀ p ∈ ptrs, p < st.length)
    (hdoc : ∀ p ∈ ptrs, (getField (st.getD p []) "doc_id").isSome)
    (hnd : (docIds st ptrs).Nodup)
    (hkeys : ds.map Prod.fst = dm.map Prod.fst)
    (hdmreg : ∀ pr ∈ dm, pr.2 < st.length ∧
      getField (st.getD pr.2 []) "doc_id" = some pr.1)
    (h : fuzLoop w kc ptrs r0 st ds dm = .ok (st', ds', dm')) :
    (∀ i, i ∉ ptrs.map (targetPtr dm st) → st'.getD i [] = st.getD i []) ∧
    ∀ pr ∈ List.enumFrom r0 ptrs,
      getField (st'.getD (targetPtr dm st pr.2) []) "fuzzy_rank" = some (.vn pr.1) ∧
      getField (st'.getD (targetPtr dm st pr.2) []) "fuzzy_score" =
        some ((getField (st.getD pr.2 []) "score").getD (.vn 0)) ∧
      getField (st'.getD (targetPtr dm st pr.2) []) "fuzzy_type" =
        some ((getField (st.getD pr.2 []) "type").getD (.vs "")) := by
  induction ptrs generalizing r0 st ds dm with
  | nil =>
    simp only [fuzLoop, Except.ok.injEq, Prod.mk.injEq] at h
    obtain ⟨h1, _, _⟩ := h
    subst h1
    exact ⟨fun i _ => rfl, by simp [List.enumFrom]⟩
  | cons p rest ih =>
    have hp := hdoc p (List.mem_cons_self _ _)
    obtain ⟨d, hd⟩ := Option.isSome_iff_exists.mp hp
    have hdid : docIdD st p = d := by simp only [docIdD, hd, Option.getD_some]
    have hndc : docIdD st p ∉ docIds st rest ∧ (docIds st rest).Nodup := by
      have hcons : docIds st (p :: rest) = docIdD st p :: docIds st rest := rfl
      rw [hcons] at hnd
      exact List.nodup_cons.mp hnd
    have hplen : p < st.length := hb p (List.mem_cons_self _ _)
    -- doc ids of registered targets
    have htargetid : ∀ q, q ∈ (p :: rest) →
        getField (st.getD (targetPtr dm st q) []) "doc_id" = some (docIdD st q) ∧
        targetPtr dm st q < st.length := by
      intro q hq
      cases hlk : lookupA dm (docIdD st q) with
      | some tq =>
        have hmem := lookupA_mem _ _ _ hlk
        obtain ⟨h1, h2⟩ := hdmreg _ hmem
        simp only [targetPtr, hlk, Option.getD_some]
        exact ⟨h2, h1⟩
      | none =>
        simp only [targetPtr, hlk, Option.getD_none]
        obtain ⟨v, hv⟩ := Option.isSome_iff_exists.mp (hdoc q hq)
        refine ⟨?_, hb q hq⟩
        rw [hv]
        simp only [docIdD, hv, Option.getD_some]
    simp only [fuzLoop] at h
    rw [show getDocId (st.getD p []) = .ok d by unfold getDocId; rw [hd], hw] at h
    dsimp only at h
    -- the write pointer is the registered target of `p`
    have hmain : ∃ (dm1 : List (Val × Nat)) (ds2 : List (Val × Rat)),
        ds2.map Prod.fst = dm1.map Prod.fst ∧
        (∀ pr ∈ dm1, pr.2 < st.length ∧
          getField (st.getD pr.2 []) "doc_id" = some pr.1) ∧
        (∀ dq, dq ≠ d → lookupA dm1 dq = lookupA dm dq) ∧
        fuzLoop w kc rest (r0 + 1)
          (((st.set (targetPtr dm st p) (setField (st.getD (targetPtr dm st p) [])
              "fuzzy_rank" (.vn r0))).set (targetPtr dm st p)
            (setField ((st.set (targetPtr dm st p) (setField (st.getD (targetPtr dm st p) [])
              "fuzzy_rank" (.vn r0))).getD (targetPtr dm st p) []) "fuzzy_score"
              ((getField (st.getD p []) "score").getD (.vn 0)))).set (targetPtr dm st p)
            (setField (((st.set (targetPtr dm st p) (setField (st.getD (targetPtr dm st p) [])
              "fuzzy_rank" (.vn r0))).set (targetPtr dm st p)
            (setField ((st.set (targetPtr dm st p) (setField (st.getD (targetPtr dm st p) [])
              "fuzzy_rank" (.vn r0))).getD (targetPtr dm st p) []) "fuzzy_score"
              ((getField (st.getD p []) "score").getD (.vn 0)))).getD (targetPtr dm st p) [])
              "fuzzy_type" ((getField (st.getD p []) "type").getD (.vs ""))))
          ds2 dm1 = .ok (st', ds', dm') := by
      cases hlk : lookupA ds d with
      | none =>
        have hdmn : lookupA dm d = none := by
          rw [lookupA_eq_none, ← hkeys]
          exact (lookupA_eq_none _ _).mp hlk
        have htp : targetPtr dm st p = p := by
          simp [targetPtr, hdid, hdmn]
        have hlkdm1 : lookupA (dm ++ [(d, p)]) d = some p := by
          rw [lookupA_append_right _ _ _ ((lookupA_eq_none _ _).mp hdmn)]
          simp [lookupA]
        refine ⟨dm ++ [(d, p)],
          mapUpdate (ds ++ [(d, 0)]) d (fun x => x + wf / ((kc : Rat) + r0 + 1)),
          ?_, ?_, ?_, ?_⟩
        · rw [keys_mapUpdate]
          simp [hkeys]
        · intro pr hpr
          rcases List.mem_append.mp hpr with hm | hm
          · exact hdmreg _ hm
          · simp only [List.mem_singleton] at hm
            subst hm
            exact ⟨hplen, hd⟩
        · intro dq hdq
          exact lookupA_append_singleton_ne _ _ _ _ hdq
        · rw [hlk] at h
          simp only [Option.isNone_none, if_true] at h
          rw [hlkdm1] at h
          simp only [Option.isSome_some, if_true, Option.getD_some] at h
          rw [htp]
          exact h
      | some x =>
        have hdm : (lookupA dm d).isSome := by
          cases hlkdm : lookupA dm d with
          | some y => simp
          | none =>
            have : d ∉ dm.map Prod.fst := (lookupA_eq_none _ _).mp hlkdm
            rw [← hkeys] at this
            rw [(lookupA_eq_none _ _).mpr this] at hlk
            exact Option.noConfusion hlk
        obtain ⟨t0, ht0⟩ := Option.isSome_iff_exists.mp hdm
        have htp : targetPtr dm st p = t0 := by
          simp [targetPtr, hdid, ht0]
        refine ⟨dm, mapUpdate ds d (fun x => x + wf / ((kc : Rat) + r0 + 1)),
          ?_, hdmreg, fun _ _ => rfl, ?_⟩
        · rw [keys_mapUpdate]
          exact hkeys
        · rw [hlk] at h
          simp only [Option.isNone_some, Bool.false_eq_true, if_false] at h
          rw [ht0] at h
          simp only [Option.isSome_some, if_true, Option.getD_some] at h
          rw [htp]
          exact h
    obtain ⟨dm1, ds2, hkeys1, hdmreg1, hlk1, h⟩ := hmain
    set t := targetPtr dm st p with htdef
    have htid : getField (st.getD t []) "doc_id" = some d := by
      have := (htargetid p (List.mem_cons_self _ _)).1
      rw [hdid] at this
      exact this
    have htlen : t < st.length := (htargetid p (List.mem_cons_self _ _)).2
    set st1 := st.set t (setField (st.getD t []) "fuzzy_rank" (.vn r0)) with hst1
    set st2 := st1.set t (setField (st1.getD t []) "fuzzy_score"
      ((getField (st.getD p []) "score").getD (.vn 0))) with hst2
    set st3 := st2.set t (setField (st2.getD t []) "fuzzy_type"
      ((getField (st.getD p []) "type").getD (.vs ""))) with hst3
    have hlen3 : st3.length = st.length := by
      rw [hst3, hst2, hst1]
      simp [length_set_store]
    have hframe3 : ∀ i k, k ≠ "fuzzy_rank" → k ≠ "fuzzy_score" → k ≠ "fuzzy_type" →
        getField (st3.getD i []) k = getField (st.getD i []) k := by
      intro i k hk1 hk2 hk3
      rw [hst3, frame_set_setField _ _ _ _ _ _ hk3, hst2,
        frame_set_setField _ _ _ _ _ _ hk2, hst1,
        frame_set_setField _ _ _ _ _ _ hk1]
    have hother3 : ∀ i, i ≠ t → st3.getD i [] = st.getD i [] := by
      intro i hit
      rw [hst3, getD_set_ne _ _ _ _ hit, hst2, getD_set_ne _ _ _ _ hit, hst1,
        getD_set_ne _ _ _ _ hit]
    have hrec3 : st3.getD t [] =
        setField (setField (setField (st.getD t []) "fuzzy_rank" (.vn r0))
          "fuzzy_score" ((getField (st.getD p []) "score").getD (.vn 0)))
          "fuzzy_type" ((getField (st.getD p []) "type").getD (.vs "")) := by
      have l1 : t < st1.length := by rw [hst1, length_set_store]; exact htlen
      have l2 : t < st2.length := by rw [hst2, length_set_store]; exact l1
      rw [hst3, getD_set_self _ _ _ l2, hst2, getD_set_self _ _ _ l1, hst1,
        getD_set_self _ _ _ htlen]
    have hb3 : ∀ q ∈ rest, q < st3.length := by
      intro q hq
      rw [hlen3]
      exact hb q (List.mem_cons_of_mem _ hq)
    have hdoc3 : ∀ q ∈ rest, (getField (st3.getD q []) "doc_id").isSome := by
      intro q hq
      rw [hframe3 q "doc_id" (by decide) (by decide) (by decide)]
      exact hdoc q (List.mem_cons_of_mem _ hq)
    have hdocid3 : ∀ q, docIdD st3 q = docIdD st q := by
      intro q
      simp only [docIdD]
      rw [hframe3 q "doc_id" (by decide) (by decide) (by decide)]
    have hids3 : docIds st3 rest = docIds st rest :=
      List.map_congr_left (fun q _ => hdocid3 q)
    have hnd3 : (docIds st3 rest).Nodup := by
      rw [hids3]
      exact hndc.2
    have hdmreg3 : ∀ pr ∈ dm1, pr.2 < st3.length ∧
        getField (st3.getD pr.2 []) "doc_id" = some pr.1 := by
      intro pr hpr
      obtain ⟨h1, h2⟩ := hdmreg1 pr hpr
      refine ⟨by rw [hlen3]; exact h1, ?_⟩
      rw [hframe3 pr.2 "doc_id" (by decide) (by decide) (by decide)]
      exact h2
    -- targets are preserved for the remaining pointers
    have htpres : ∀ q ∈ rest, targetPtr dm1 st3 q = targetPtr dm st q := by
      intro q hq
      have hdq : docIdD st q ≠ d := by
        intro hc
        rw [← hdid] at hc
        exact hndc.1 (hc ▸ List.mem_map.mpr ⟨q, hq, rfl⟩)
      simp only [targetPtr, hdocid3 q]
      rw [hlk1 _ hdq]
    have htne : ∀ q ∈ rest, targetPtr dm st q ≠ t := by
      intro q hq hc
      have h1 := (htargetid q (List.mem_cons_of_mem _ hq)).1
      rw [hc, htid] at h1
      have : docIdD st q = d := (Option.some.inj h1).symm
      rw [← hdid] at this
      exact hndc.1 (this ▸ List.mem_map.mpr ⟨q, hq, rfl⟩)
    have hqne : ∀ q ∈ rest, q ≠ t := by
      intro q hq hc
      obtain ⟨v, hv⟩ := Option.isSome_iff_exists.mp (hdoc q (List.mem_cons_of_mem _ hq))
      have hdq : docIdD st q = v := by simp only [docIdD, hv, Option.getD_some]
      have : some v = some d := by rw [← hv, hc, htid]
      have hvd : v = d := Option.some.inj this
      rw [hvd] at hdq
      rw [← hdid] at hdq
      exact hndc.1 (hdq ▸ List.mem_map.mpr ⟨q, hq, rfl⟩)
    obtain ⟨ihA, ihB⟩ := ih _ st3 ds2 dm1 hb3 hdoc3 hnd3 hkeys1 hdmreg3 h
    have hmapres : rest.map (targetPtr dm1 st3) = rest.map (targetPtr dm st) :=
      List.map_congr_left htpres
    constructor
    · intro i hi
      simp only [List.map, List.mem_cons] at hi
      push_neg at hi
      have hA := ihA i (by rw [hmapres]; exact fun hc => hi.2 hc)
      rw [hA, hother3 i hi.1]
    · intro pr hpr
      simp only [List.enumFrom, List.mem_cons] at hpr
      rcases hpr with hpr | hpr
      · subst hpr
        have hA := ihA t (by
          rw [hmapres]
          intro hc
          obtain ⟨q, hq, he⟩ := List.mem_map.mp hc
          exact htne q hq he)
        rw [hA, hrec3]
        refine ⟨?_, ?_, ?_⟩
        · rw [getField_setField_ne _ _ _ _ (by decide),
            getField_setField_ne _ _ _ _ (by decide), getField_setField_self]
        · rw [getField_setField_ne _ _ _ _ (by decide), getField_setField_self]
        · rw [getField_setField_self]
      · obtain ⟨h1, h2, h3⟩ := ihB pr hpr
        have hqrest : pr.2 ∈ rest := snd_mem_of_mem_enumFrom rest (r0 + 1) pr hpr
        rw [htpres pr.2 hqrest] at h1 h2 h3
        rw [hother3 pr.2 (hqne pr.2 hqrest)] at h2 h3
        exact ⟨h1, h2, h3⟩

theorem mem_enumFrom_of_getq {α : Type} (l : List α) (n i : Nat) (x : α)
    (h : l.get? i = some x) : (n + i, x) ∈ List.enumFrom n l := by
  induction l generalizing n i with
  | nil => simp [List.get?] at h
  | cons y ys ih =>
    cases i with
    | zero =>
      simp only [List.get?] at h
      simp [List.enumFrom, Option.some.inj h]
    | succ j =>
      simp only [List.get?] at h
      have := ih (n + 1) j h
      have harith : n + 1 + j = n + (j + 1) := by omega
      rw [harith] at this
      exact List.mem_cons_of_mem _ this

theorem lookupA_idPtrs_of_idxOf (st : Store) (ptrs : List Nat) (d : Val)
    (i : Nat) (p : Nat) (hidx : idxOf d (docIds st ptrs) = some i)
    (hget : ptrs.get? i = some p) :
    lookupA (idPtrs st ptrs) d = some p ∧ docIdD st p = d := by
  induction ptrs generalizing i with
  | nil => simp [docIds, idxOf] at hidx
  | cons q rest ih =>
    have hcons : docIds st (q :: rest) = docIdD st q :: docIds st rest := rfl
    rw [hcons] at hidx
    by_cases hq : docIdD st q = d
    · simp only [idxOf, hq, if_true, Option.some.injEq] at hidx
      subst hidx
      simp only [List.get?, Option.some.injEq] at hget
      subst hget
      simp [idPtrs, lookupA, hq]
    · simp only [idxOf, hq, if_false] at hidx
      cases hrest : idxOf d (docIds st rest) with
      | none => rw [hrest] at hidx; simp at hidx
      | some j =>
        rw [hrest] at hidx
        simp only [Option.map, Option.some.injEq] at hidx
        subst hidx
        simp only [List.get?] at hget
        have := ih j hrest hget
        simp only [idPtrs, List.map_cons, lookupA, hq, if_false]
        exact this

/-- C7 counterexample: for a doc id in both lists, the fuzzy record's own
metadata field `snippet` is NOT merged into the fused output record — the
output is the vector record plus rank/score annotations only. -/
theorem C7_counterexample_no_union_merge :
    fusedOut 60 [c7VecRec, c7FuzRec] [0] [1] (some exWeights) =
      some [[("doc_id", .vs "d1"), ("score", .vr 1), ("vector_rank", .vn 0),
        ("vector_score", .vr 1), ("fuzzy_rank", .vn 0), ("fuzzy_score", .vr 2),
        ("fuzzy_type", .vs ""), ("fused_score", .vr (1/61)),
        ("fusion_method", .vs "RRF")]] ∧
    getField [("doc_id", .vs "d1"), ("score", .vr 1), ("vector_rank", .vn 0),
        ("vector_score", .vr 1), ("fuzzy_rank", .vn 0), ("fuzzy_score", .vr 2),
        ("fuzzy_type", .vs ""), ("fused_score", .vr (1/61)),
        ("fusion_method", .vs "RRF")] "snippet" = none := by
  constructor
  · simp +decide [fusedOut, fuseResults, vecLoop, fuzLoop, lookupW, getDocId,
      getField, setField, lookupA, mapUpdate, stableSortDescBy, insertDescBy,
      buildFused, c7VecRec, c7FuzRec, exWeights]
    norm_num [insertDescBy, buildFused, getField, setField, lookupA]
  · decide

/-- C7 amended: for an item appearing in both lists, the fused record keeps
the per-strategy rank/score annotations (`vector_rank`, `vector_score`,
`fuzzy_rank`, `fuzzy_score`, `fuzzy_type`), but its remaining fields are
exactly those of the vector record: the fuzzy record's other metadata fields
are discarded, not merged. -/
theorem C7_both_lists_annotations (kc : Nat) (st : Store) (vec fuz : List Nat)
    (w : List (String × Rat)) (wv wf : Rat)
    (hwv : lookupW w "vector" = .ok wv) (hwf : lookupW w "fuzzy" = .ok wf)
    (hvb : ∀ p ∈ vec, p < st.length) (hfb : ∀ p ∈ fuz, p < st.length)
    (hvdoc : ∀ p ∈ vec, (getField (st.getD p []) "doc_id").isSome)
    (hfdoc : ∀ p ∈ fuz, (getField (st.getD p []) "doc_id").isSome)
    (hvnd : (docIds st vec).Nodup) (hfnd : (docIds st fuz).Nodup) :
    ∃ st' out, fuseResults kc st vec fuz (some w) = .ok (st', out) ∧
      ∀ r ∈ out, ∀ d iv ifz pv pf,
        getField r "doc_id" = some d →
        idxOf d (docIds st vec) = some iv →
        idxOf d (docIds st fuz) = some ifz →
        vec.get? iv = some pv → fuz.get? ifz = some pf →
        getField r "vector_rank" = some (.vn iv) ∧
        getField r "vector_score" =
          some ((getField (st.getD pv []) "score").getD (.vn 0)) ∧
        getField r "fuzzy_rank" = some (.vn ifz) ∧
        getField r "fuzzy_score" =
          some ((getField (st.getD pf []) "score").getD (.vn 0)) ∧
        getField r "fuzzy_type" =
          some ((getField (st.getD pf []) "type").getD (.vs "")) ∧
        ∀ k, k ≠ "vector_rank" → k ≠ "vector_score" → k ≠ "fuzzy_rank" →
          k ≠ "fuzzy_score" → k ≠ "fuzzy_type" → k ≠ "fused_score" →
          k ≠ "fusion_method" → getField r k = getField (st.getD pv []) k := by
  obtain ⟨stA, hA⟩ := vecLoop_accum w kc vec 0 st [] [] wv hwv hvdoc
  obtain ⟨lenA, frameA⟩ := vecLoop_frame _ _ _ _ _ _ _ _ _ _ hA
  have hfdocA : ∀ p ∈ fuz, (getField (stA.getD p []) "doc_id").isSome := by
    intro p hp
    rw [frameA p "doc_id" (by decide) (by decide)]
    exact hfdoc p hp
  set dsA := (accumLoop wv kc (idPtrs st vec) 0 ([], [])).1 with hdsA
  set dmA := (accumLoop wv kc (idPtrs st vec) 0 ([], [])).2 with hdmA
  obtain ⟨stB, hB⟩ := fuzLoop_accum w kc fuz 0 stA dsA dmA wf hwf hfdocA
  have hdocidA : ∀ q, docIdD stA q = docIdD st q := by
    intro q
    simp only [docIdD]
    rw [frameA q "doc_id" (by decide) (by decide)]
  have hidsA : idPtrs stA fuz = idPtrs st fuz := by
    simp only [idPtrs]
    exact List.map_congr_left (fun q _ => by rw [hdocidA q])
  rw [hidsA] at hB
  obtain ⟨lenB, frameB⟩ := fuzLoop_frame _ _ _ _ _ _ _ _ _ _ hB
  set dsB := (accumLoop wf kc (idPtrs st fuz) 0 (dsA, dmA)).1 with hdsB
  set dmB := (accumLoop wf kc (idPtrs st fuz) 0 (dsA, dmA)).2 with hdmB
  set sorted := stableSortDescBy (fun p : Val × Rat => p.2) dsB with hsorted
  have hfuse : fuseResults kc st vec fuz (some w) =
      .ok (stB, buildFused stB dmB sorted) := by
    simp only [fuseResults, Option.getD_some, hA, hB]
  have hvmf : (idPtrs st vec).map Prod.fst = docIds st vec := idPtrs_map_fst st vec
  have hfmf : (idPtrs st fuz).map Prod.fst = docIds st fuz := idPtrs_map_fst st fuz
  have hvndp : ((idPtrs st vec).map Prod.fst).Nodup := by rw [hvmf]; exact hvnd
  have hfndp : ((idPtrs st fuz).map Prod.fst).Nodup := by rw [hfmf]; exact hfnd
  obtain ⟨hkeysA, hmetaA⟩ := accumLoop_keys wv kc (idPtrs st vec) 0 [] [] hvndp
  have hkeysA' : dsA.map Prod.fst = docIds st vec := by
    rw [← hdsA] at hkeysA
    simpa [hvmf] using hkeysA
  have hmetaA' : dmA = idPtrs st vec := by
    rw [← hdmA] at hmetaA
    simpa using hmetaA
  obtain ⟨hkeysB, hmetaB⟩ := accumLoop_keys wf kc (idPtrs st fuz) 0 dsA dmA hfndp
  have hmetaB' : dmB = idPtrs st vec ++ (idPtrs st fuz).filter
      (fun dp => !(decide (dp.1 ∈ docIds st vec))) := by
    rw [← hdmB] at hmetaB
    rw [hmetaB, hmetaA', hkeysA']
  -- annotation lemmas applied to the two runs
  obtain ⟨vA, vB⟩ := vecLoop_annot w kc vec 0 st [] [] stA dsA dmA wv hwv hvb hvdoc
    hvnd (by simp) (by simp) hA
  have hfbA : ∀ p ∈ fuz, p < stA.length := by
    intro p hp
    rw [lenA]
    exact hfb p hp
  have hndA : (docIds stA fuz).Nodup := by
    have : docIds stA fuz = docIds st fuz := List.map_congr_left (fun q _ => hdocidA q)
    rw [this]
    exact hfnd
  have hkeysAdm : dsA.map Prod.fst = dmA.map Prod.fst := by
    rw [hkeysA', hmetaA', hvmf]
  have hdmregA : ∀ pr ∈ dmA, pr.2 < stA.length ∧
      getField (stA.getD pr.2 []) "doc_id" = some pr.1 := by
    intro pr hpr
    rw [hmetaA'] at hpr
    obtain ⟨p, hp, he⟩ := List.mem_map.mp hpr
    have he1 : docIdD st p = pr.1 := congrArg Prod.fst he
    have he2 : p = pr.2 := congrArg Prod.snd he
    obtain ⟨v, hv⟩ := Option.isSome_iff_exists.mp (hvdoc p hp)
    refine ⟨by rw [lenA, ← he2]; exact hvb p hp, ?_⟩
    rw [frameA pr.2 "doc_id" (by decide) (by decide), ← he2, hv]
    simp only [docIdD, hv, Option.getD_some] at he1
    rw [he1]
  obtain ⟨fA, fB⟩ := fuzLoop_annot w kc fuz 0 stA dsA dmA stB dsB dmB wf hwf hfbA
    hfdocA hndA hkeysAdm hdmregA hB
  refine ⟨stB, buildFused stB dmB sorted, hfuse, ?_⟩
  intro r hr d iv ifz pv pf hrd hiv hif hgv hgf
  obtain ⟨hlkv, hdv⟩ := lookupA_idPtrs_of_idxOf st vec d iv pv hiv hgv
  obtain ⟨hlkf, hdf⟩ := lookupA_idPtrs_of_idxOf st fuz d ifz pf hif hgf
  -- the registered pointer of d is the vector record pv
  have hlkdmB : lookupA dmB d = some pv := by
    rw [hmetaB']
    rw [lookupA_append_left _ _ _ (by simp [hlkv])]
    exact hlkv
  -- identify r with the corresponding pair
  rw [buildFused_eq_map] at hr
  obtain ⟨pr, hpr, hfr⟩ := List.mem_map.mp hr
  -- the doc id of r is pr.1
  have hprd : pr.1 = d := by
    have hsortperm : sorted.Perm dsB := stableSortDescBy_perm _ dsB
    have hprB : pr ∈ dsB := hsortperm.mem_iff.mp hpr
    -- pr.1 is a key of dsB, hence of dmB
    have hkeyeq : dsB.map Prod.fst = dmB.map Prod.fst := by
      rw [← hdsB] at hkeysB
      rw [← hdmB] at hmetaB
      rw [hkeysB, hmetaB, List.map_append, hkeysA', hmetaA', hvmf,
        map_fst_filter_fst (fun x => !(decide (x ∈ docIds st vec))) (idPtrs st fuz), hfmf]
    have hmem1 : pr.1 ∈ dmB.map Prod.fst := by
      rw [← hkeyeq]
      exact List.mem_map.mpr ⟨pr, hprB, rfl⟩
    obtain ⟨t, ht⟩ : ∃ t, lookupA dmB pr.1 = some t := by
      cases hlt : lookupA dmB pr.1 with
      | none => exact absurd ((lookupA_eq_none _ _).mp hlt) (by simp [hmem1])
      | some t => exact ⟨t, rfl⟩
    -- r's doc id comes from the registered record
    have hregB : getField (stB.getD t []) "doc_id" = some pr.1 := by
      rw [hmetaB'] at ht
      have hmem := lookupA_mem _ _ _ ht
      rw [frameB t "doc_id" (by decide) (by decide) (by decide),
        frameA t "doc_id" (by decide) (by decide)]
      rcases List.mem_append.mp hmem with hm | hm
      · obtain ⟨p, hp, he⟩ := List.mem_map.mp hm
        have he1 : docIdD st p = pr.1 := congrArg Prod.fst he
        have he2 : p = t := congrArg Prod.snd he
        obtain ⟨v, hv⟩ := Option.isSome_iff_exists.mp (hvdoc p hp)
        rw [← he2, hv]
        simp only [docIdD, hv, Option.getD_some] at he1
        rw [he1]
      · have hm' := List.mem_of_mem_filter hm
        obtain ⟨p, hp, he⟩ := List.mem_map.mp hm'
        have he1 : docIdD st p = pr.1 := congrArg Prod.fst he
        have he2 : p = t := congrArg Prod.snd he
        obtain ⟨v, hv⟩ := Option.isSome_iff_exists.mp (hfdoc p hp)
        rw [← he2, hv]
        simp only [docIdD, hv, Option.getD_some] at he1
        rw [he1]
    have : getField r "doc_id" = some pr.1 := by
      rw [← hfr, getField_setField_ne _ _ _ _ (by decide),
        getField_setField_ne _ _ _ _ (by decide), ht, Option.getD_some, hregB]
    rw [this] at hrd
    exact Option.some.inj hrd
  rw [hprd] at hfr
  rw [hlkdmB] at hfr
  simp only [Option.getD_some] at hfr
  -- field access through the two outer copies
  have hracc : ∀ k, k ≠ "fused_score" → k ≠ "fusion_method" →
      getField r k = getField (stB.getD pv []) k := by
    intro k hk1 hk2
    rw [← hfr, getField_setField_ne _ _ _ _ hk2, getField_setField_ne _ _ _ _ hk1]
  -- vector annotations at pv (frameB: fuzzy writes don't change them)
  have hvmem : (iv, pv) ∈ List.enumFrom 0 vec := by
    have := mem_enumFrom_of_getq vec 0 iv pv hgv
    simpa using this
  obtain ⟨hvr, hvs⟩ := vB (iv, pv) hvmem
  -- fuzzy annotations land at targetPtr dmA stA pf = pv
  have htgt : targetPtr dmA stA pf = pv := by
    simp only [targetPtr, hdocidA pf, hdf]
    rw [hmetaA', hlkv]
    rfl
  have hfmem : (ifz, pf) ∈ List.enumFrom 0 fuz := by
    have := mem_enumFrom_of_getq fuz 0 ifz pf hgf
    simpa using this
  obtain ⟨hfr1, hfs1, hft1⟩ := fB (ifz, pf) hfmem
  rw [htgt] at hfr1 hfs1 hft1
  refine ⟨?_, ?_, ?_, ?_, ?_, ?_⟩
  · rw [hracc _ (by decide) (by decide),
      frameB pv "vector_rank" (by decide) (by decide) (by decide)]
    exact hvr
  · rw [hracc _ (by decide) (by decide),
      frameB pv "vector_score" (by decide) (by decide) (by decide)]
    exact hvs
  · rw [hracc _ (by decide) (by decide)]
    exact hfr1
  · rw [hracc _ (by decide) (by decide), hfs1,
      frameA pf "score" (by decide) (by decide)]
  · rw [hracc _ (by decide) (by decide), hft1,
      frameA pf "type" (by decide) (by decide)]
  · intro k hk1 hk2 hk3 hk4 hk5 hk6 hk7
    rw [hracc _ hk6 hk7, frameB pv k hk3 hk4 hk5, frameA pv k hk1 hk2]

/-- Witness for the C7 amended theorem at the two-record example. -/
theorem C7_both_lists_annotations_witness :
    (fusedOut 60 [c7VecRec, c7FuzRec] [0] [1] (some exWeights)).isSome := by
  obtain ⟨st', out, heq, _⟩ := C7_both_lists_annotations 60 [c7VecRec, c7FuzRec]
    [0] [1] exWeights (3/5) (2/5) rfl rfl (by decide) (by decide) (by decide)
    (by decide) (by decide) (by decide)
  simp [fusedOut, heq]

/-- C3 counterexample: inserting an edge with an unknown endpoint does NOT
raise an `UnknownNodeError` (no such exception exists in the code); the call
returns `False` normally, with the memory unchanged. -/
theorem C3_counterexample_returns_false_not_raise :
    addEdge 9 gmA "a" "missing_node" "similarity" (1/2) none = .ok (gmA, false) ∧
    gmA.graph.nodes.length = 1 ∧ gmA.graph.edges.length = 0 := by
  refine ⟨?_, by decide, by decide⟩
  rfl

/-- C3 amended: inserting an edge whose source or target is not in the graph
returns `False` (after logging a warning) — no exception is raised — and the
memory, hence its node and edge counts, is unchanged. -/
theorem C3_add_edge_unknown_endpoint (now : Nat) (gm : GM)
    (source target edgeType : String) (weight : Rat)
    (md : Option (List (String × PVal)))
    (h : source ∉ gm.graph.nodes.map Prod.fst ∨
      target ∉ gm.graph.nodes.map Prod.fst) :
    addEdge now gm source target edgeType weight md = .ok (gm, false) := by
  simp only [addEdge, addEdgeBody, if_pos h]

/-- Witness for the C3 amended theorem. -/
theorem C3_add_edge_unknown_endpoint_witness :
    addEdge 9 gmA "a" "missing_node" "similarity" (1/2) none = .ok (gmA, false) :=
  C3_add_edge_unknown_endpoint 9 gmA "a" "missing_node" "similarity" (1/2) none
    (by decide)

/-- C9 counterexample: re-inserting an existing node overwrites its
`created_at` timestamp (the node count stays 1, but the timestamp set at
first insertion is replaced by the re-insertion time). -/
theorem C9_counterexample_created_at_overwritten :
    createdAtOf gmA "a" = some (.vn 1) ∧
    (match addNode h0 2 gmA "a" "document" "c2" none none with
      | .ok r => some (createdAtOf r.1 "a", r.1.graph.nodes.length)
      | .error _ => none) = some (some (.vn 2), 1) ∧
    (Val.vn 2) ≠ (Val.vn 1) := by
  refine ⟨by decide, by decide, by decide⟩

theorem lookupS_map_update {α : Type} (l : List (String × α)) (id : String)
    (f : α → α) :
    lookupS (l.map (fun p => if p.1 = id then (id, f p.2) else p)) id =
      (lookupS l id).map f := by
  induction l with
  | nil => simp [lookupS]
  | cons p t ih =>
    by_cases hp : p.1 = id
    · simp [lookupS, hp]
    · simp [lookupS, hp, ih]

theorem getField_updateRec_not_mem (r : Rec) (other : Rec) (k : String)
    (h : k ∉ other.map Prod.fst) :
    getField (updateRec r other) k = getField r k := by
  induction other generalizing r with
  | nil => rfl
  | cons e t ih =>
    simp only [List.map, List.mem_cons] at h
    push_neg at h
    have hstep : updateRec r (e :: t) = updateRec (setField r e.1 e.2) t := rfl
    rw [hstep, ih _ (h.2), getField_setField_ne _ _ _ _ (Ne.symm (h.1 ∘ Eq.symm))]

theorem lookupS_mem_snd {α : Type} (l : List (String × α)) (t : String) (r : α)
    (h : lookupS l t = some r) : r ∈ l.map Prod.snd := by
  induction l with
  | nil => simp [lookupS] at h
  | cons p tl ih =>
    by_cases hp : p.1 = t
    · simp only [lookupS, hp, if_true, Option.some.injEq] at h
      simp [← h]
    · simp only [lookupS, hp, if_false] at h
      simp [ih h]

theorem nodeTypesRegistry_keys (t : String) (r : Rec)
    (h : lookupS nodeTypesRegistry t = some r) :
    r.map Prod.fst = ["color", "shape"] := by
  have hr := lookupS_mem_snd _ _ _ h
  simp only [nodeTypesRegistry, List.map_cons, List.map_nil, List.mem_cons,
    List.not_mem_nil, or_false] at hr
  rcases hr with hr | hr | hr | hr | hr | hr <;> subst hr <;> decide

theorem lookupS_isSome_of_mem {α : Type} (l : List (String × α)) (k : String)
    (h : k ∈ l.map Prod.fst) : ∃ v, lookupS l k = some v := by
  induction l with
  | nil => simp at h
  | cons p t ih =>
    by_cases hp : p.1 = k
    · exact ⟨p.2, by simp [lookupS, hp]⟩
    · simp only [List.map, List.mem_cons] at h
      rcases h with h | h
      · exact absurd h.symm hp
      · simpa [lookupS, hp] using ih h

/-- The fields written by `add_node`'s attribute dict survive into the
updated record: `content` is the new content and `created_at` the new
timestamp, whatever the visual registry adds. -/
theorem getField_updateRec_attrs (r0 : Rec) (h : String → Int) (now : Nat)
    (nodeType content : String) (md : List (String × PVal)) :
    getField (updateRec r0 (match lookupS nodeTypesRegistry nodeType with
      | some visual => updateRec [("type", .vs nodeType), ("content", .vs content),
          ("metadata", .vdict md), ("created_at", .vn now),
          ("content_hash", .vi (h content))] visual
      | none => [("type", .vs nodeType), ("content", .vs content),
          ("metadata", .vdict md), ("created_at", .vn now),
          ("content_hash", .vi (h content))])) "content" = some (.vs content) ∧
    getField (updateRec r0 (match lookupS nodeTypesRegistry nodeType with
      | some visual => updateRec [("type", .vs nodeType), ("content", .vs content),
          ("metadata", .vdict md), ("created_at", .vn now),
          ("content_hash", .vi (h content))] visual
      | none => [("type", .vs nodeType), ("content", .vs content),
          ("metadata", .vdict md), ("created_at", .vn now),
          ("content_hash", .vi (h content))])) "created_at" = some (.vn now) := by
  cases hreg : lookupS nodeTypesRegistry nodeType with
  | none =>
    constructor <;>
      simp [updateRec, List.foldl, getField_setField_ne, getField_setField_self]
  | some visual =>
    have hr := lookupS_mem_snd _ _ _ hreg
    simp only [nodeTypesRegistry, List.map_cons, List.map_nil, List.mem_cons,
      List.not_mem_nil, or_false] at hr
    rcases hr with hr | hr | hr | hr | hr | hr <;> subst hr <;>
      constructor <;>
      simp [updateRec, List.foldl, getField_setField_ne, getField_setField_self]

/-- C9 amended: re-inserting an existing node id succeeds, preserves the
node count and the set of node ids, and overwrites the node's attributes —
the content becomes the new content and `created_at` becomes the
re-insertion timestamp (it is NOT preserved from the first insertion). -/
theorem C9_re_add_overwrites_attrs (h : String → Int) (now : Nat) (gm : GM)
    (nodeId nodeType content : String) (md : Option (List (String × PVal)))
    (emb : Option (List Rat))
    (hmem : nodeId ∈ gm.graph.nodes.map Prod.fst) :
    ∃ gm', addNode h now gm nodeId nodeType content md emb = .ok (gm', true) ∧
      gm'.graph.nodes.length = gm.graph.nodes.length ∧
      gm'.graph.nodes.map Prod.fst = gm.graph.nodes.map Prod.fst ∧
      ∃ r, nodeAttrs gm'.graph nodeId = some r ∧
        getField r "content" = some (.vs content) ∧
        getField r "created_at" = some (.vn now) := by
  refine ⟨_, rfl, ?_, ?_, ?_⟩
  · simp [addNodeBody, nxAddNode, hmem]
  · simp only [addNodeBody, nxAddNode, if_pos hmem, List.map_map]
    apply List.map_congr_left
    intro p _
    by_cases hp : p.1 = nodeId
    · simp [hp, Function.comp]
    · simp [hp, Function.comp]
  · simp only [addNodeBody, nxAddNode, if_pos hmem, nodeAttrs]
    obtain ⟨r0, hr0⟩ := lookupS_isSome_of_mem gm.graph.nodes nodeId hmem
    set A2 := (match lookupS nodeTypesRegistry nodeType with
      | some visual => updateRec [("type", Val.vs nodeType), ("content", Val.vs content),
          ("metadata", Val.vdict (md.getD [])), ("created_at", Val.vn now),
          ("content_hash", Val.vi (h content))] visual
      | none => [("type", Val.vs nodeType), ("content", Val.vs content),
          ("metadata", Val.vdict (md.getD [])), ("created_at", Val.vn now),
          ("content_hash", Val.vi (h content))]) with hA2
    rw [lookupS_map_update gm.graph.nodes nodeId (fun r => updateRec r A2), hr0]
    refine ⟨_, rfl, ?_, ?_⟩
    · exact (hA2 ▸ getField_updateRec_attrs r0 h now nodeType content (md.getD [])).1
    · exact (hA2 ▸ getField_updateRec_attrs r0 h now nodeType content (md.getD [])).2

/-- Witness for C9: re-adding node `"a"` of `gmA` (created at time 1) at
time 2 succeeds, keeps the node set, and the stored attributes carry the
new content and the new `created_at = 2`. -/
theorem C9_re_add_overwrites_attrs_witness :
    ("a" ∈ gmA.graph.nodes.map Prod.fst) ∧
    ∃ gm', addNode h0 2 gmA "a" "document" "c2" none none = .ok (gm', true) ∧
      gm'.graph.nodes.length = gmA.graph.nodes.length ∧
      gm'.graph.nodes.map Prod.fst = gmA.graph.nodes.map Prod.fst ∧
      ∃ r, nodeAttrs gm'.graph "a" = some r ∧
        getField r "content" = some (.vs "c2") ∧
        getField r "created_at" = some (.vn 2) :=
  ⟨by decide,
    C9_re_add_overwrites_attrs h0 2 gmA "a" "document" "c2" none none (by decide)⟩

/-- C10: every public operation of the graph memory is total at its
interface: for every input and every behavior of the library
collaborators, `add_node`, `add_edge`, `query_neighbors` and
`reasoning_walk` return a value (`.ok`) and never propagate an exception
to the caller - internal failures are caught and turned into the default
`False` / `{"neighbors": []}` / `[]` results inside each body. -/
theorem C10_public_ops_total (h : String → Int) (now : Nat) (gm : GM)
    (nodeId nodeType content source target edgeType goalType : String)
    (md : Option (List (String × PVal))) (emb : Option (List Rat))
    (weight : Rat) (maxDepth maxSteps : Int) (edgeTypes : List String)
    (startNodes : List String)
    (pr : Graph → Except String (List (String × Rat)))
    (sp : Graph → String → String → Option (List String)) :
    (∃ v, addNode h now gm nodeId nodeType content md emb = .ok v) ∧
    (∃ v, addEdge now gm source target edgeType weight md = .ok v) ∧
    (∃ v, queryNeighbors gm nodeId maxDepth edgeTypes = .ok v) ∧
    (∃ v, reasoningWalk pr sp gm startNodes goalType maxSteps = .ok v) := by
  refine ⟨?_, ?_, ?_, ?_⟩
  · unfold addNode
    cases addNodeBody h now gm nodeId nodeType content md emb <;> exact ⟨_, rfl⟩
  · unfold addEdge
    cases addEdgeBody now gm source target edgeType weight md <;> exact ⟨_, rfl⟩
  · unfold queryNeighbors
    cases queryNeighborsBody gm nodeId maxDepth edgeTypes <;> exact ⟨_, rfl⟩
  · unfold reasoningWalk
    cases reasoningWalkBody pr sp gm startNodes goalType maxSteps <;> exact ⟨_, rfl⟩

/-- C5 counterexample: with `max_steps = 0` the walk is NOT empty when a
start node itself has the goal type: the pagerank strategy emits the start
node (hop distance 0 satisfies `path_length <= max_steps`), and the
shortest-path strategy's single-node path passes its length check too. -/
theorem C5_counterexample_zero_steps_emits :
    reasoningWalk prA spA gmA ["a"] "document" 0 =
      .ok [[("node_id", .vs "a"), ("pagerank_score", .vr 1),
        ("path_length", .vn 0), ("method", .vs "pagerank"),
        ("composite_score", .vr 1)]] ∧
    reasoningWalk prA spA gmA ["a"] "document" 0 ≠ .ok [] := by
  have h : reasoningWalk prA spA gmA ["a"] "document" 0 =
      .ok [[("node_id", .vs "a"), ("pagerank_score", .vr 1),
        ("path_length", .vn 0), ("method", .vs "pagerank"),
        ("composite_score", .vr 1)]] := by
    simp +decide [reasoningWalk, reasoningWalkBody, walkPerStart, bfsSearch, bfsLoop,
      pagerankSearch, prCollect, prGet, hopDist, hopLoop, shortestPathSearch, spCollect,
      pathWeightE, dedupByNodeId, stableSortDescBy, insertDescBy, compositeScoreD,
      gmA, gm0, prA, spA, addNode, addNodeBody, nxAddNode, nodeTypesRegistry,
      lookupS, updateRec, getField, successors, nodeAttrsE, nodeAttrs, edgeData]
  refine ⟨h, ?_⟩
  rw [h]
  simp

/-- With a strictly negative `max_steps` the BFS loop emits nothing: every
queued depth is a natural number, hence `> max_steps`, so each item is
skipped. -/
lemma bfsLoop_neg (g : Graph) (s gt : String) (ms : Int) (hms : ms < 0) :
    ∀ fuel queue visited results,
    bfsLoop g s gt ms fuel queue visited results = .ok results := by
  intro fuel
  induction fuel with
  | zero => intro queue visited results; cases queue <;> rfl
  | succ n ih =>
    intro queue visited results
    cases queue with
    | nil => rfl
    | cons q qs =>
      obtain ⟨current, depth, path⟩ := q
      simp only [bfsLoop]
      by_cases h10 : 10 ≤ results.length
      · rw [if_pos h10]
      · rw [if_neg h10,
          if_pos (Or.inl (lt_of_lt_of_le hms (Int.natCast_nonneg depth)))]
        exact ih qs visited results

/-- With a strictly negative `max_steps` the pagerank collection emits
nothing: no hop distance satisfies `len <= max_steps`. -/
lemma prCollect_neg (g : Graph) (s gt : String) (ms : Int) (hms : ms < 0)
    (scores : List (String × Rat)) :
    ∀ l, prCollect g s gt ms scores l = [] := by
  intro l
  induction l with
  | nil => rfl
  | cons p rest ih =>
    obtain ⟨id, data⟩ := p
    simp only [prCollect]
    by_cases ht : getField data "type" = some (.vs gt)
    · rw [if_pos ht]
      cases hd : hopDist g s id with
      | none => exact ih
      | some len =>
        dsimp only
        rw [if_neg (by omega : ¬ ((len : Int) ≤ ms))]
        exact ih
    · rw [if_neg ht]; exact ih

/-- With a strictly negative `max_steps` the shortest-path collection
returns the empty list or raises (a length-0 path divides by zero); it
never emits a record. -/
lemma spCollect_neg (sp : Graph → String → String → Option (List String))
    (g : Graph) (s : String) (ms : Int) (hms : ms < 0) :
    ∀ goals, spCollect sp g s ms goals = .ok [] ∨
      ∃ e, spCollect sp g s ms goals = .error e := by
  intro goals
  induction goals with
  | nil => exact Or.inl rfl
  | cons goal rest ih =>
    simp only [spCollect]
    cases hsp : sp g s goal with
    | none => exact ih
    | some path =>
      by_cases hlen : (path.length : Int) ≤ ms + 1
      · have h0 : path = [] := by
          have := List.length_eq_zero.mp (by omega : path.length = 0)
          exact this
        subst h0
        dsimp only
        rw [if_pos hlen]
        exact Or.inr ⟨_, rfl⟩
      · dsimp only
        rw [if_neg hlen]; exact ih

/-- The shortest-path strategy is empty for negative `max_steps`. -/
lemma shortestPathSearch_neg (sp : Graph → String → String → Option (List String))
    (g : Graph) (s gt : String) (ms : Int) (hms : ms < 0) :
    shortestPathSearch sp g s gt ms = [] := by
  unfold shortestPathSearch
  rcases spCollect_neg sp g s ms hms
      ((g.nodes.filter (fun p => decide (getField p.2 "type" = some (.vs gt)))).map
        Prod.fst) with h | ⟨e, h⟩ <;> rw [h]

/-- The strategy union over all start nodes is empty for negative
`max_steps`. -/
lemma walkPerStart_neg (pr : Graph → Except String (List (String × Rat)))
    (sp : Graph → String → String → Option (List String))
    (g : Graph) (gt : String) (ms : Int) (hms : ms < 0) :
    ∀ starts, walkPerStart pr sp g gt ms starts = .ok [] := by
  intro starts
  induction starts with
  | nil => rfl
  | cons s rest ih =>
    simp only [walkPerStart]
    by_cases hmem : s ∈ g.nodes.map Prod.fst
    · rw [if_pos hmem]
      have hbfs : bfsSearch g s gt ms = .ok [] := bfsLoop_neg g s gt ms hms _ _ _ _
      have hpg : pagerankSearch pr g s gt ms = [] := by
        unfold pagerankSearch
        cases pr g with
        | error e => rfl
        | ok scores => exact prCollect_neg g s gt ms hms scores g.nodes
      rw [hbfs, ih]
      dsimp only
      rw [hpg, shortestPathSearch_neg sp g s gt ms hms]
      rfl
    · rw [if_neg hmem]; exact ih

/-- C5 amended: `reasoning_walk` returns the empty list for every graph,
start set, goal type and collaborator behavior when `max_steps` is
STRICTLY negative; at `max_steps = 0` the pagerank and shortest-path
strategies can still emit a goal-typed start node
(`C5_counterexample_zero_steps_emits`). -/
theorem C5_neg_steps_empty (pr : Graph → Except String (List (String × Rat)))
    (sp : Graph → String → String → Option (List String))
    (gm : GM) (startNodes : List String) (goalType : String) (ms : Int)
    (hms : ms < 0) :
    reasoningWalk pr sp gm startNodes goalType ms = .ok [] := by
  unfold reasoningWalk reasoningWalkBody
  rw [walkPerStart_neg pr sp gm.graph goalType ms hms startNodes]
  rfl

/-- Witness for C5: the one-node memory, `max_steps = -1`. -/
theorem C5_neg_steps_empty_witness :
    (-1 : Int) < 0 ∧ reasoningWalk prA spA gmA ["a"] "document" (-1) = .ok [] :=
  ⟨by decide, C5_neg_steps_empty prA spA gmA ["a"] "document" (-1) (by decide)⟩

/-- Records emitted by the pagerank collection carry the `node_id` of a
goal-typed node of the scanned list. -/
lemma prCollect_node_id (g : Graph) (s gt : String) (ms : Int)
    (scores : List (String × Rat)) :
    ∀ l r, r ∈ prCollect g s gt ms scores l →
      ∃ id, (∃ data, (id, data) ∈ l ∧ getField data "type" = some (.vs gt)) ∧
        getField r "node_id" = some (.vs id) := by
  intro l
  induction l with
  | nil => intro r hr; cases hr
  | cons p rest ih =>
    intro r hr
    obtain ⟨id, data⟩ := p
    simp only [prCollect] at hr
    by_cases ht : getField data "type" = some (.vs gt)
    · rw [if_pos ht] at hr
      cases hd : hopDist g s id with
      | none =>
        rw [hd] at hr
        dsimp only at hr
        obtain ⟨i, ⟨d, hm, h1⟩, h2⟩ := ih r hr
        exact ⟨i, ⟨d, List.mem_cons_of_mem _ hm, h1⟩, h2⟩
      | some len =>
        rw [hd] at hr
        dsimp only at hr
        by_cases hle : (len : Int) ≤ ms
        · rw [if_pos hle] at hr
          cases hr with
          | head => exact ⟨id, ⟨data, List.mem_cons_self _ _, ht⟩, rfl⟩
          | tail _ h =>
            obtain ⟨i, ⟨d, hm, h1⟩, h2⟩ := ih r h
            exact ⟨i, ⟨d, List.mem_cons_of_mem _ hm, h1⟩, h2⟩
        · rw [if_neg hle] at hr
          obtain ⟨i, ⟨d, hm, h1⟩, h2⟩ := ih r hr
          exact ⟨i, ⟨d, List.mem_cons_of_mem _ hm, h1⟩, h2⟩
    · rw [if_neg ht] at hr
      obtain ⟨i, ⟨d, hm, h1⟩, h2⟩ := ih r hr
      exact ⟨i, ⟨d, List.mem_cons_of_mem _ hm, h1⟩, h2⟩

/-- Records emitted by the shortest-path collection carry the `node_id` of
one of the scanned goal nodes. -/
lemma spCollect_node_id (sp : Graph → String → String → Option (List String))
    (g : Graph) (s : String) (ms : Int) :
    ∀ goals l, spCollect sp g s ms goals = .ok l →
      ∀ r ∈ l, ∃ goal, goal ∈ goals ∧ getField r "node_id" = some (.vs goal) := by
  intro goals
  induction goals with
  | nil =>
    intro l hl r hr
    simp only [spCollect] at hl
    cases hl
    cases hr
  | cons goal rest ih =>
    intro l hl r hr
    simp only [spCollect] at hl
    cases hsp0 : sp g s goal with
    | none =>
      rw [hsp0] at hl
      obtain ⟨go, hm, h2⟩ := ih l hl r hr
      exact ⟨go, List.mem_cons_of_mem _ hm, h2⟩
    | some path =>
      rw [hsp0] at hl
      dsimp only at hl
      by_cases hlen : (path.length : Int) ≤ ms + 1
      · rw [if_pos hlen] at hl
        cases hw : pathWeightE g path with
        | error e => rw [hw] at hl; exact absurd hl (by simp)
        | ok wsum =>
          rw [hw] at hl
          dsimp only at hl
          by_cases h0 : path.length = 0
          · rw [if_pos h0] at hl; exact absurd hl (by simp)
          · rw [if_neg h0] at hl
            cases hrec : spCollect sp g s ms rest with
            | error e => rw [hrec] at hl; exact absurd hl (by simp)
            | ok others =>
              rw [hrec] at hl
              dsimp only at hl
              rw [Except.ok.injEq] at hl
              subst hl
              cases hr with
              | head => exact ⟨goal, List.mem_cons_self _ _, rfl⟩
              | tail _ h =>
                obtain ⟨go, hm, h2⟩ := ih others hrec r h
                exact ⟨go, List.mem_cons_of_mem _ hm, h2⟩
      · rw [if_neg hlen] at hl
        obtain ⟨go, hm, h2⟩ := ih l hl r hr
        exact ⟨go, List.mem_cons_of_mem _ hm, h2⟩

/-- Deduplication drops every record whose `node_id` is already seen. -/
lemma dedupByNodeId_all_seen (v : Val) :
    ∀ rest seen, v ∈ seen → (∀ x ∈ rest, getField x "node_id" = some v) →
    dedupByNodeId rest seen = .ok [] := by
  intro rest
  induction rest with
  | nil => intro seen _ _; rfl
  | cons x xs ih =>
    intro seen hv hall
    simp only [dedupByNodeId, hall x (List.mem_cons_self _ _)]
    rw [if_pos hv]
    exact ih seen hv (fun y hy => hall y (List.mem_cons_of_mem _ hy))

/-- Deduplication of a list whose records all share one `node_id` keeps
exactly the head record. -/
lemma dedupByNodeId_head_all (r : Rec) (rest : List Rec) (v : Val)
    (hr : getField r "node_id" = some v)
    (hall : ∀ x ∈ rest, getField x "node_id" = some v) :
    dedupByNodeId (r :: rest) [] = .ok [r] := by
  simp only [dedupByNodeId, hr]
  rw [if_neg (List.not_mem_nil v)]
  rw [List.nil_append]
  rw [dedupByNodeId_all_seen v rest [v] (List.mem_singleton_self v) hall]

/-- C4: on a path graph `start -> mid -> goal` whose endpoints' types
differ from `goal_type` except for `goal`, `reasoning_walk` from `start`
with `max_steps = 2` returns exactly the BFS occurrence of `goal` with
`composite_score = 1/(2+1) = 1/3` and `path = [start, mid, goal]`, while
`max_steps = 1` returns the empty list (no strategy emits anything: BFS
cannot reach depth 2, pagerank's hop distance check fails, and the
shortest-path strategy's only candidate path has no direct edge). The
`sp` collaborator is only assumed to return paths from its source to its
target. -/
theorem C4_reasoning_walk_path_graph (pr : Graph → Except String (List (String × Rat)))
    (sp : Graph → String → String → Option (List String))
    (s m gl ts tm gt : String) (ras ram rag e1 e2 : Rec)
    (hsm : s ≠ m) (hsg : s ≠ gl) (hmg : m ≠ gl)
    (has : getField ras "type" = some (.vs ts)) (hts : ts ≠ gt)
    (ham : getField ram "type" = some (.vs tm)) (htm : tm ≠ gt)
    (hag : getField rag "type" = some (.vs gt))
    (hspv : ∀ a b p,
      sp ⟨[(s, ras), (m, ram), (gl, rag)], [((s, m), e1), ((m, gl), e2)]⟩ a b = some p →
      (∃ t, p = a :: t) ∧ p.getLast? = some b) :
    reasoningWalk pr sp
      ⟨⟨[(s, ras), (m, ram), (gl, rag)], [((s, m), e1), ((m, gl), e2)]⟩, []⟩ [s] gt 2 =
      .ok [[("node_id", .vs gl), ("path", .vls [s, m, gl]), ("depth", .vn 2),
        ("method", .vs "bfs"), ("composite_score", .vr (1/3))]] ∧
    reasoningWalk pr sp
      ⟨⟨[(s, ras), (m, ram), (gl, rag)], [((s, m), e1), ((m, gl), e2)]⟩, []⟩ [s] gt 1 =
      .ok [] := by
  set g : Graph := ⟨[(s, ras), (m, ram), (gl, rag)], [((s, m), e1), ((m, gl), e2)]⟩ with hg
  have hbfs2 : bfsSearch g s gt 2 =
      .ok [[("node_id", .vs gl), ("path", .vls [s, m, gl]), ("depth", .vn 2),
        ("method", .vs "bfs"), ("composite_score", .vr (1/3))]] := by
    rw [hg]
    simp [bfsSearch, bfsLoop, successors, nodeAttrsE, nodeAttrs, lookupS,
      has, ham, hag, hts, htm, hsm, hsg, hmg, Ne.symm hsm, Ne.symm hsg, Ne.symm hmg]
    norm_num
  have hbfs1 : bfsSearch g s gt 1 = .ok [] := by
    rw [hg]
    simp [bfsSearch, bfsLoop, successors, nodeAttrsE, nodeAttrs, lookupS,
      has, ham, hag, hts, htm, hsm, hsg, hmg, Ne.symm hsm, Ne.symm hsg, Ne.symm hmg]
  have hhop : hopDist g s gl = some 2 := by
    rw [hg]
    simp [hopDist, hopLoop, successors, hsm, hsg, hmg,
      Ne.symm hsm, Ne.symm hsg, Ne.symm hmg]
  have hnodes : g.nodes = [(s, ras), (m, ram), (gl, rag)] := by rw [hg]
  have hfilter : (g.nodes.filter
      (fun p => decide (getField p.2 "type" = some (.vs gt)))).map Prod.fst = [gl] := by
    rw [hg]
    simp [has, ham, hag, hts, htm]
  have hmem_s : s ∈ g.nodes.map Prod.fst := by rw [hg]; simp
  have hpgall : ∀ (ms : Int), ∀ r ∈ pagerankSearch pr g s gt ms,
      getField r "node_id" = some (.vs gl) := by
    intro ms r hr
    unfold pagerankSearch at hr
    cases hpr : pr g with
    | error e => rw [hpr] at hr; dsimp only at hr; cases hr
    | ok scores =>
      rw [hpr] at hr
      dsimp only at hr
      obtain ⟨id, ⟨data, hm, htype⟩, hnid⟩ := prCollect_node_id g s gt ms scores g.nodes r hr
      rw [hnodes] at hm
      simp only [List.mem_cons, List.not_mem_nil, or_false, Prod.mk.injEq] at hm
      rcases hm with ⟨h1, h2⟩ | ⟨h1, h2⟩ | ⟨h1, h2⟩
      · subst h1; subst h2
        rw [has] at htype
        simp only [Option.some.injEq, Val.vs.injEq] at htype
        exact absurd htype hts
      · subst h1; subst h2
        rw [ham] at htype
        simp only [Option.some.injEq, Val.vs.injEq] at htype
        exact absurd htype htm
      · subst h1
        exact hnid
  have hspall : ∀ (ms : Int), ∀ r ∈ shortestPathSearch sp g s gt ms,
      getField r "node_id" = some (.vs gl) := by
    intro ms r hr
    unfold shortestPathSearch at hr
    rw [hfilter] at hr
    cases hsc : spCollect sp g s ms [gl] with
    | error e => rw [hsc] at hr; dsimp only at hr; cases hr
    | ok l =>
      rw [hsc] at hr
      dsimp only at hr
      obtain ⟨go, hgm, hnid⟩ := spCollect_node_id sp g s ms [gl] l hsc r hr
      simp only [List.mem_cons, List.not_mem_nil, or_false] at hgm
      subst hgm
      exact hnid
  have hpg1 : pagerankSearch pr g s gt 1 = [] := by
    unfold pagerankSearch
    cases hpr : pr g with
    | error e => rfl
    | ok scores =>
      rw [hnodes]
      simp [prCollect, has, ham, hag, hts, htm, hhop]
  have hsp1 : shortestPathSearch sp g s gt 1 = [] := by
    unfold shortestPathSearch
    rw [hfilter]
    have hsplit : spCollect sp g s 1 [gl] = .ok [] ∨
        ∃ e, spCollect sp g s 1 [gl] = .error e := by
      cases hsp0 : sp g s gl with
      | none =>
        left
        simp [spCollect, hsp0]
      | some path =>
        have hsp0l := hsp0
        rw [hg] at hsp0l
        obtain ⟨⟨t, hpt⟩, hlast⟩ := hspv s gl path hsp0l
        by_cases hlen : (path.length : Int) ≤ 1 + 1
        · have hpath : path = [s, gl] := by
            subst hpt
            cases t with
            | nil =>
              exfalso
              simp only [List.getLast?_singleton, Option.some.injEq] at hlast
              exact hsg hlast
            | cons x xs =>
              cases xs with
              | nil =>
                simp only [List.getLast?_cons_cons, List.getLast?_singleton,
                  Option.some.injEq] at hlast
                subst hlast
                rfl
              | cons y ys =>
                exfalso
                rw [List.length_cons, List.length_cons, List.length_cons] at hlen
                push_cast at hlen
                omega
          right
          refine ⟨"KeyError: edge", ?_⟩
          rw [hpath] at hsp0
          simp [spCollect, hsp0, pathWeightE, edgeData, hg,
            hsm, hmg, hsg, Ne.symm hsm, Ne.symm hmg, Ne.symm hsg]
        · left
          have hlen2 : ¬ (path.length ≤ 2) := by push_cast at hlen; omega
          simp [spCollect, hsp0, hlen2]
    rcases hsplit with h | ⟨e, h⟩ <;> rw [h]
  constructor
  · show reasoningWalk pr sp ⟨g, []⟩ [s] gt 2 = _
    unfold reasoningWalk reasoningWalkBody
    have hwps2 : walkPerStart pr sp g gt 2 [s] =
        .ok ([("node_id", .vs gl), ("path", .vls [s, m, gl]), ("depth", .vn 2),
          ("method", .vs "bfs"), ("composite_score", .vr (1/3))] ::
          (pagerankSearch pr g s gt 2 ++ shortestPathSearch sp g s gt 2)) := by
      simp [walkPerStart, hmem_s, hbfs2]
    dsimp only
    rw [hwps2]
    dsimp only
    have hall2 : ∀ x ∈ pagerankSearch pr g s gt 2 ++ shortestPathSearch sp g s gt 2,
        getField x "node_id" = some (Val.vs gl) := by
      intro x hx
      rcases List.mem_append.mp hx with hx2 | hx2
      · exact hpgall 2 x hx2
      · exact hspall 2 x hx2
    rw [dedupByNodeId_head_all
      [("node_id", Val.vs gl), ("path", Val.vls [s, m, gl]), ("depth", Val.vn 2),
        ("method", Val.vs "bfs"), ("composite_score", Val.vr (1/3))]
      (pagerankSearch pr g s gt 2 ++ shortestPathSearch sp g s gt 2)
      (Val.vs gl) (by simp [getField]) hall2]
    rfl
  · show reasoningWalk pr sp ⟨g, []⟩ [s] gt 1 = _
    unfold reasoningWalk reasoningWalkBody
    have hwps1 : walkPerStart pr sp g gt 1 [s] = .ok [] := by
      simp [walkPerStart, hmem_s, hbfs1, hpg1, hsp1]
    dsimp only
    rw [hwps1]
    rfl

/-- Witness for C4: the concrete three-node path graph, with an empty
pagerank score list and a path-less shortest-path collaborator. -/
theorem C4_reasoning_walk_path_graph_witness :
    ("s" : String) ≠ "m" ∧
    reasoningWalk (fun _ => .ok []) (fun _ _ _ => none)
      ⟨⟨[("s", [("type", .vs "doc")]), ("m", [("type", .vs "doc")]),
         ("g", [("type", .vs "goal")])],
        [(("s", "m"), []), (("m", "g"), [])]⟩, []⟩ ["s"] "goal" 2 =
      .ok [[("node_id", .vs "g"), ("path", .vls ["s", "m", "g"]), ("depth", .vn 2),
        ("method", .vs "bfs"), ("composite_score", .vr (1/3))]] ∧
    reasoningWalk (fun _ => .ok []) (fun _ _ _ => none)
      ⟨⟨[("s", [("type", .vs "doc")]), ("m", [("type", .vs "doc")]),
         ("g", [("type", .vs "goal")])],
        [(("s", "m"), []), (("m", "g"), [])]⟩, []⟩ ["s"] "goal" 1 = .ok [] :=
  ⟨by decide,
    C4_reasoning_walk_path_graph (fun _ => .ok []) (fun _ _ _ => none) "s" "m" "g" "doc" "doc" "goal"
      [("type", .vs "doc")] [("type", .vs "doc")] [("type", .vs "goal")] [] []
      (by decide) (by decide) (by decide) rfl (by decide) rfl (by decide) rfl
      (fun a b p h => Option.noConfusion h)⟩

/-- C1 counterexample: in mode `"all"`, when the fuzzy collaborator
raises while the vector collaborator succeeds with a result, the call
returns the `{"error", "query"}` dict - NOT a results record with an
empty fuzzy channel and the vector results preserved. -/
theorem C1_counterexample_fuzzy_error_collapses_call :
    hybridRetrieve 0 [[("doc_id", .vs "d1")]] vq0 fq0 fqn0 qn0 "q" "all" none
      (some 10) = .ok (.errorRecord "boom" "q") ∧
    ∀ r : HRRecord,
      (Except.ok (HRResult.errorRecord "boom" "q") : Except String HRResult) ≠
        .ok (.record r) := by
  refine ⟨rfl, ?_⟩
  intro r h
  simp at h

/-- C1 amended: `hybrid_retrieve` wraps all channels in one `try`; in
mode `"all"`, if the fuzzy collaborator raises `e` (after a successful
vector search), the whole call returns `{"error": e, "query": query}`:
the vector results are discarded, no channel degrades independently, and
no diagnostic field accompanies partial results. -/
theorem C1_collaborator_error_aborts_call (now : Nat) (store : Store)
    (vq : String → Nat → Option String → Except String (List Nat))
    (fq : String → Nat → Except String (List Nat))
    (fqn : String → List String)
    (qn : String → Int → Except String (List (QKey × List Rec)))
    (query : String) (pilotId : Option String) (k : Option Nat)
    (v : List Nat) (e : String)
    (hv : vq query (k.getD 10 * 2) pilotId = .ok v)
    (hf : fq query (k.getD 10 * 2) = .error e) :
    hybridRetrieve now store vq fq fqn qn query "all" pilotId k =
      .ok (.errorRecord e query) := by
  unfold hybridRetrieve hybridRetrieveBody
  rw [if_pos (Or.inl rfl), hv]
  dsimp only
  rw [if_pos (Or.inl rfl), hf]

/-- Witness for C1: the concrete collaborators at query `"q"`, `k = 10`. -/
theorem C1_collaborator_error_aborts_call_witness :
    vq0 "q" (((some 10).getD 10) * 2) none = .ok [0] ∧
    fq0 "q" (((some 10).getD 10) * 2) = .error "boom" ∧
    hybridRetrieve 7 [] vq0 fq0 fqn0 qn0 "q" "all" none (some 10) =
      .ok (.errorRecord "boom" "q") :=
  ⟨rfl, rfl, C1_collaborator_error_aborts_call 7 [] vq0 fq0 fqn0 qn0 "q" none (some 10) [0] "boom" rfl rfl⟩

end AppitPro
